import Mathlib

/-!
Verification of the voyage-geo orchestration core against its
natural-language specification.

The Lean definitions below are a shallow embedding of the Python source:

* `RunContext`, `PStage`, `runStages`, `pipelineRun` embed
  `voyage_geo/core/pipeline.py` (`Pipeline.run`);
* the execution fan-out transition system embeds
  `voyage_geo/stages/execution/stage.py` (`ExecutionStage.execute`);
* `leaderboardExecutionPhase` embeds the resume guard of
  `voyage_geo/core/leaderboard_engine.py` (`LeaderboardEngine._execute`);
* `dedupLayer1` / `dedupLayer2Step` embed `voyage_geo/utils/text.py`
  (`deduplicate_brands`);
* `rankPositionAnalyze` embeds
  `voyage_geo/stages/analysis/analyzers/rank_position.py`;
* `extractRankedBrands` embeds `voyage_geo/utils/text.py`
  (`extract_ranked_brands_with_llm` and `_canonicalize_brand_name`).

Machine reals (Python floats) are modelled as rationals; asynchronous
interleaving is modelled by an explicit event-trace small-step semantics.
-/

namespace VoyageGeo

/-! ## Pipeline (`core/pipeline.py`)

`RunContext` carries the fields the pipeline itself reads or writes
(`status`, `errors`); every other field of the Python `RunContext`
(brand profile, query set, execution run, ...) is abstracted into the
`data` component, which stages and hooks may mutate freely. -/

structure RunContext (α : Type) where
  status : String
  errors : List String
  data : α
  deriving Repr, DecidableEq

/-- Outcome of one `stage.execute(ctx)` call.  Python stages mutate the
context in place, so a raised exception still leaves the (possibly
mutated) context visible to the caller: the `exc` constructor therefore
carries the context as it stood when the exception escaped. -/
inductive StageResult (α : Type) where
  | ok (ctx : RunContext α)
  | exc (ctx : RunContext α) (msg : String)
  deriving Repr, DecidableEq

/-- A pipeline stage: a name and an `execute` body. -/
structure PStage (α : Type) where
  name : String
  exec : RunContext α → StageResult α

/-- Hook table: `Pipeline._hooks` maps a stage name to an optional
post-stage callback. -/
def HookTable (α : Type) : Type := String → Option (RunContext α → RunContext α)

/-- `if stage.name in self._hooks: current = await self._hooks[stage.name](current)` -/
def applyHook {α : Type} (hooks : HookTable α) (name : String) (c : RunContext α) : RunContext α :=
  match hooks name with
  | some h => h c
  | none => c

/-- Result of `Pipeline.run`: the final context, the exception message
re-raised to the caller (if any), and the trace of stage names whose
`execute` was invoked (observational instrumentation of the loop). -/
structure RunOutcome (α : Type) where
  ctx : RunContext α
  raised : Option String
  executed : List String
  deriving Repr, DecidableEq

/-- The stage loop of `Pipeline.run` (pipeline.py lines 40-55): run each
stage in order; on exception mark the context failed, append
`"[stage_name] message"` to `errors` and re-raise; after a successful
stage run its hook; after the last stage set status `"completed"`. -/
def runStages {α : Type} (hooks : HookTable α) :
    List (PStage α) → RunContext α → RunOutcome α
  | [], c => ⟨{ c with status := "completed" }, none, []⟩
  | s :: rest, c =>
    match s.exec c with
    | .ok c1 =>
      let r := runStages hooks rest (applyHook hooks s.name c1)
      ⟨r.ctx, r.raised, s.name :: r.executed⟩
    | .exc c1 msg =>
      ⟨{ c1 with
          status := "failed",
          errors := c1.errors ++ ["[" ++ s.name ++ "] " ++ msg] },
        some msg, [s.name]⟩

/-- `Pipeline.run(ctx)` (pipeline.py lines 36-55): sets
`ctx.status = "running"` and runs the stage loop.  NOTE: the source
function accepts no `stop_after` parameter and contains no early-stop
check, although its only caller (`engine.py` line 124) passes one. -/
def pipelineRun {α : Type} (stages : List (PStage α)) (hooks : HookTable α)
    (ctx : RunContext α) : RunOutcome α :=
  runStages hooks stages { ctx with status := "running" }

/-- Runs a prefix of the stage list (with hooks), returning the context
it hands to the next stage, or `none` if some stage of the prefix
raised.  Used to phrase "all stages before `s` completed". -/
def runStagesClean {α : Type} (hooks : HookTable α) :
    List (PStage α) → RunContext α → Option (RunContext α)
  | [], c => some c
  | s :: rest, c =>
    match s.exec c with
    | .ok c1 => runStagesClean hooks rest (applyHook hooks s.name c1)
    | .exc _ _ => none

/-! ## Execution fan-out (`stages/execution/stage.py`)

`ExecutionStage.execute` builds the `iteration × query × provider`
cross product of tasks, runs each task under an `asyncio.Semaphore`
with a per-task try/except that converts any provider exception or
timeout into a failed `QueryResult`, appends each task's result to a
shared list, and finally assembles an `ExecutionRun`.

The cooperative concurrency is embedded as a small-step transition
system over explicit event traces: an `acquire i` event is task `i`
entering the semaphore (`async with semaphore`), a `complete i` event
is task `i` finishing its body (appending its result and releasing the
semaphore).  The outcome of task `i`'s provider call — the response, or
the exception/timeout message — is an environment parameter
`outcome : Nat → TaskOutcome`. -/

structure TokenUsage where
  prompt_tokens : Nat
  completion_tokens : Nat
  total_tokens : Nat
  deriving Repr, DecidableEq

structure Query where
  id : String
  text : String
  deriving Repr, DecidableEq

structure ProviderId where
  name : String
  deriving Repr, DecidableEq

/-- The ephemeral (query, provider, iteration) triple of one task. -/
structure QueryTask where
  query : Query
  provider : ProviderId
  iteration : Nat
  deriving Repr, DecidableEq

/-- `voyage_geo/types/result.py` `QueryResult`. -/
structure QueryResult where
  query_id : String
  query_text : String
  provider : String
  model : String
  response : String
  latency_ms : Nat
  token_usage : Option TokenUsage
  iteration : Nat
  timestamp : String
  error : Option String
  deriving Repr, DecidableEq

/-- `voyage_geo/types/result.py` `ExecutionRun` (sans schema version). -/
structure ExecutionRun where
  run_id : String
  brand : String
  providers : List String
  total_queries : Nat
  completed_queries : Nat
  failed_queries : Nat
  results : List QueryResult
  started_at : String
  completed_at : Option String
  status : String
  deriving Repr, DecidableEq

/-- What the environment does to one task's provider call: either the
awaited response arrives inside the timeout (its model name, text,
measured latency, token usage, start timestamp), or the call raises —
provider exception or `asyncio.TimeoutError` — with message `str(e)`. -/
inductive TaskOutcome where
  | success (model : String) (text : String) (latency : Nat)
      (usage : Option TokenUsage) (ts : String)
  | failure (msg : String) (ts : String)
  deriving Repr, DecidableEq

def TaskOutcome.isSuccess : TaskOutcome → Bool
  | .success _ _ _ _ _ => true
  | .failure _ _ => false

/-- Task build order of stage.py lines 106-110:
`for iteration in range(1, iterations+1): for query: for provider:`. -/
def taskList (queries : List Query) (providers : List ProviderId)
    (iterations : Nat) : List QueryTask :=
  (List.range iterations).flatMap fun it =>
    queries.flatMap fun q =>
      providers.map fun p => ⟨q, p, it + 1⟩

/-- The `QueryResult` built by `run_task` (stage.py lines 73-83 on
success, 86-96 on exception): a failure records `model="unknown"`,
empty response, zero latency and `error=str(e)`. -/
def taskResult (t : QueryTask) (o : TaskOutcome) : QueryResult :=
  match o with
  | .success model text latency usage ts =>
    ⟨t.query.id, t.query.text, t.provider.name, model, text, latency,
      usage, t.iteration, ts, none⟩
  | .failure msg ts =>
    ⟨t.query.id, t.query.text, t.provider.name, "unknown", "", 0,
      none, t.iteration, ts, some msg⟩

/-- The (query, provider, iteration) key of a produced result. -/
def resultKey (r : QueryResult) : String × String × Nat :=
  (r.query_id, r.provider, r.iteration)

/-- The (query, provider, iteration) key of a task. -/
def taskKey (t : QueryTask) : String × String × Nat :=
  (t.query.id, t.provider.name, t.iteration)

inductive TaskPhase where
  | pending
  | running
  | done
  deriving Repr, DecidableEq

/-- Scheduler state: the semaphore counter, each task's phase, the
shared `execution_run.results` list, and the two `nonlocal` counters. -/
structure ExecState where
  sem : Nat
  phases : List TaskPhase
  results : List QueryResult
  completedCnt : Nat
  failedCnt : Nat
  deriving Repr, DecidableEq

inductive ExecEvent where
  | acquire (i : Nat)
  | complete (i : Nat)
  deriving Repr, DecidableEq

/-- Initial scheduler state: semaphore at `concurrency`, every task
pending, no results, both counters zero. -/
def initExecState (n concurrency : Nat) : ExecState :=
  ⟨concurrency, List.replicate n .pending, [], 0, 0⟩

def dummyTask : QueryTask := ⟨⟨"", ""⟩, ⟨""⟩, 0⟩

/-- One scheduler step.  `acquire i` fires only for a pending task when
the semaphore counter is positive; `complete i` fires only for a task
inside the semaphore and atomically appends `taskResult`, bumps the
success/failure counter, and releases the semaphore (the Python body
does all of this before leaving `async with semaphore`). -/
def execStep (tasks : List QueryTask) (outcome : Nat → TaskOutcome)
    (s : ExecState) : ExecEvent → Option ExecState
  | .acquire i =>
    if s.phases.getD i .done = .pending ∧ 0 < s.sem then
      some { s with sem := s.sem - 1, phases := s.phases.set i .running }
    else none
  | .complete i =>
    if s.phases.getD i .done = .running then
      some { s with
        sem := s.sem + 1,
        phases := s.phases.set i .done,
        results := s.results ++ [taskResult (tasks.getD i dummyTask) (outcome i)],
        completedCnt :=
          s.completedCnt + (if (outcome i).isSuccess then 1 else 0),
        failedCnt :=
          s.failedCnt + (if (outcome i).isSuccess then 0 else 1) }
    else none

/-- Run a whole event trace; `none` if some event is not enabled. -/
def runExecTrace (tasks : List QueryTask) (outcome : Nat → TaskOutcome) :
    List ExecEvent → ExecState → Option ExecState
  | [], s => some s
  | e :: es, s =>
    match execStep tasks outcome s e with
    | some s1 => runExecTrace tasks outcome es s1
    | none => none

/-- Number of tasks currently between semaphore acquisition and
release (i.e. whose provider call may be in flight). -/
def countRunning (s : ExecState) : Nat :=
  s.phases.countP (· = TaskPhase.running)

/-- The fan-out is finished: every task has produced its result. -/
def allDone (s : ExecState) : Bool :=
  s.phases.all (· = TaskPhase.done)

/-- Status derivation of stage.py line 117:
`"completed" if failed == 0 else "partial" if completed > 0 else "failed"`. -/
def statusOf (completed failed : Nat) : String :=
  if failed = 0 then "completed"
  else if 0 < completed then "partial"
  else "failed"

/-- Assembly of the final `ExecutionRun` (stage.py lines 44-50 and
114-117) from the finished scheduler state. -/
def mkExecutionRun (run_id brand : String) (queries : List Query)
    (providers : List ProviderId) (iterations : Nat)
    (started_at completed_at : String) (s : ExecState) : ExecutionRun :=
  { run_id := run_id
    brand := brand
    providers := providers.map ProviderId.name
    total_queries := queries.length * providers.length * iterations
    completed_queries := s.completedCnt
    failed_queries := s.failedCnt
    results := s.results
    started_at := started_at
    completed_at := some completed_at
    status := statusOf s.completedCnt s.failedCnt }

/-- The invariant tying a reachable scheduler state to the set `ds` of
task indices already completed: results are exactly the completed
tasks' results in completion order, the counters tally `ds`, and the
semaphore counter balances the number of in-flight tasks. -/
def ExecInv (tasks : List QueryTask) (outcome : Nat → TaskOutcome)
    (concurrency : Nat) (s : ExecState) : Prop :=
  s.phases.length = tasks.length ∧
  countRunning s + s.sem = concurrency ∧
  ∃ ds : List Nat,
    ds.Nodup ∧
    (∀ i, i < tasks.length → (s.phases.getD i .pending = .done ↔ i ∈ ds)) ∧
    (∀ i ∈ ds, i < tasks.length) ∧
    s.results = ds.map (fun i => taskResult (tasks.getD i dummyTask) (outcome i)) ∧
    s.completedCnt = (ds.filter (fun i => (outcome i).isSuccess)).length ∧
    s.failedCnt = (ds.filter (fun i => !(outcome i).isSuccess)).length

/-! ## Leaderboard execution phase resume guard (`core/leaderboard_engine.py`) -/

/-- Step 3 of `LeaderboardEngine._execute` (leaderboard_engine.py lines
388-418): when resuming, `results/results.json` is loaded (`stored`,
`none` when the file is missing); if the loaded run has at least one
result it is reused and the `ExecutionStage` is never invoked,
otherwise the fan-out runs and issues its provider query calls.  The
result is the `ExecutionRun` used downstream paired with the number of
provider query calls made during this phase. -/
def leaderboardExecutionPhase (resume : Bool) (stored : Option ExecutionRun)
    (freshRun : ExecutionRun) (freshProviderCalls : Nat) : ExecutionRun × Nat :=
  let existing : Option ExecutionRun := if resume then stored else none
  match existing with
  | some run =>
    if run.results ≠ [] then (run, 0) else (freshRun, freshProviderCalls)
  | none => (freshRun, freshProviderCalls)


/-! ## Brand deduplication (`utils/text.py` `deduplicate_brands`)

Python dicts are modelled as insertion-ordered association lists
(`pyDictSet` updates in place or appends), Python sets as lists with
membership-guarded append. -/

/-- Python `str.lower()` (ASCII case folding), written over the char
list so that it reduces in the kernel. -/
def pyLower (s : String) : String := String.mk (s.data.map Char.toLower)

def pyDictSet {β : Type} (m : List (String × β)) (k : String) (v : β) :
    List (String × β) :=
  if m.any (fun kv => kv.1 == k) then
    m.map (fun kv => if kv.1 == k then (k, v) else kv)
  else m ++ [(k, v)]

def pyDictGet? {β : Type} (m : List (String × β)) (k : String) : Option β :=
  (m.find? (fun kv => kv.1 == k)).map Prod.snd

def pyDictGetD {β : Type} (m : List (String × β)) (k : String) (d : β) : β :=
  (pyDictGet? m k).getD d

def pySetAdd (s : List String) (x : String) : List String :=
  if s.contains x then s else s ++ [x]

/-- Python `needle in hay` on strings. -/
def strContainsSub (hay needle : String) : Bool :=
  decide (needle.toList <:+: hay.toList)

/-- `name.lower() in other.lower() or other.lower() in name.lower()`
(text.py line 224). -/
def lowerSubEither (name other : String) : Bool :=
  strContainsSub (pyLower other) (pyLower name) ||
    strContainsSub (pyLower name) (pyLower other)

/-- Python `max(group, key=len)`: the first element of maximal length. -/
def pyMaxByLen : List String → String
  | [] => ""
  | x :: xs => xs.foldl (fun best y => if best.length < y.length then y else best) x

/-- Mutable state of dedup layer 1 (text.py lines 213-234): the alias
map, the ordered canonical list, and the merged set. -/
structure DedupState where
  aliasMap : List (String × String)
  canonicalSet : List String
  merged : List String
  deriving Repr, DecidableEq

/-- The inner `for j, other in enumerate(brands)` loop (text.py lines
220-225): group `name` with every other not-yet-merged brand that is a
case-insensitive substring match in either direction. -/
def dedupGroup (all : List (Nat × String)) (i : Nat) (name : String)
    (merged : List String) : List String :=
  name :: ((all.filter (fun p =>
    (!(p.1 == i)) && (!(merged.contains p.2)) && lowerSubEither name p.2)).map
      Prod.snd)

/-- The outer `for i, name in enumerate(brands)` loop of layer 1
(text.py lines 217-234): skip merged names, group, pick the longest
member as canonical, alias every member to it, mark non-canonical
members merged, and append a fresh canonical to the canonical list. -/
def dedupLayer1Go (all : List (Nat × String)) :
    List (Nat × String) → DedupState → DedupState
  | [], st => st
  | (i, name) :: rest, st =>
    if st.merged.contains name then dedupLayer1Go all rest st
    else
      let group := dedupGroup all i name st.merged
      let canonical := pyMaxByLen group
      let aliasMap1 := group.foldl (fun m member => pyDictSet m member canonical)
        st.aliasMap
      let merged1 := group.foldl
        (fun ms member => if member ≠ canonical then pySetAdd ms member else ms)
        st.merged
      if merged1.contains canonical then
        dedupLayer1Go all rest ⟨aliasMap1, st.canonicalSet, merged1⟩
      else
        dedupLayer1Go all rest
          ⟨aliasMap1, st.canonicalSet ++ [canonical], pySetAdd merged1 canonical⟩

def dedupLayer1 (brands : List String) : DedupState :=
  dedupLayer1Go ((List.range brands.length).zip brands)
    ((List.range brands.length).zip brands) ⟨[], [], []⟩

def dedupLayer1Canonicals (brands : List String) : List String :=
  (dedupLayer1 brands).canonicalSet

/-- `canonical_lower_map = {c.lower(): c for c in canonical_set}`
(text.py line 271), built once before the suggestion loop. -/
def canonicalLowerMap (canonicalSet : List String) : List (String × String) :=
  canonicalSet.foldl (fun m c => pyDictSet m (pyLower c) c) []

structure AliasResolutionState where
  canonicalSet : List String
  aliasMap : List (String × String)
  deriving Repr, DecidableEq

/-- Processing of one LLM-suggested `(alias, canonical)` pair (text.py
lines 272-285): both names are looked up case-insensitively in the
canonical-set snapshot; when both resolve and differ, the alias is
removed from the canonical list and the alias map is redirected;
otherwise the pair is discarded and the state is unchanged. -/
def dedupLayer2Step (lookup : List (String × String))
    (st : AliasResolutionState) (pair : String × String) : AliasResolutionState :=
  match pyDictGet? lookup (pyLower pair.1), pyDictGet? lookup (pyLower pair.2) with
  | some aliasMatch, some canonMatch =>
    if aliasMatch ≠ canonMatch then
      ⟨(if st.canonicalSet.contains aliasMatch
          then st.canonicalSet.erase aliasMatch else st.canonicalSet),
        pyDictSet (st.aliasMap.map
          (fun kv => if kv.2 == aliasMatch then (kv.1, canonMatch) else kv))
          aliasMatch canonMatch⟩
    else st
  | _, _ => st

/-- Dedup layer 2 (text.py lines 236-285) applied to the parsed LLM
alias suggestions, in suggestion order. -/
def dedupLayer2 (canonicalSet : List String) (aliasMap : List (String × String))
    (pairs : List (String × String)) : AliasResolutionState :=
  pairs.foldl (dedupLayer2Step (canonicalLowerMap canonicalSet))
    ⟨canonicalSet, aliasMap⟩


/-! ## Rank-position analyzer
(`stages/analysis/analyzers/rank_position.py`)

Python floats are modelled as rationals; `round(x, d)` as exact
half-to-even decimal rounding. -/

/-- Modelled from the spec: the class `RankPositionScore` is imported
from `voyage_geo.types.analysis` but is absent from the repository
sources; its fields and zero defaults are reconstructed from the
constructor call in rank_position.py lines 87-96, its reader in
leaderboard_engine.py, and the spec's weighted-visibility definition. -/
structure RankPositionScore where
  total_ranked_responses : Nat
  mention_in_ranked_lists : Nat
  mention_coverage : ℚ
  avg_position : ℚ
  median_position : ℚ
  top3_rate : ℚ
  weighted_visibility : ℚ
  by_provider : List (String × ℚ)
  deriving Repr, DecidableEq

/-- `RankPositionScore()` with all defaults (the early return of
rank_position.py line 27). -/
def emptyRankPositionScore : RankPositionScore := ⟨0, 0, 0, 0, 0, 0, 0, []⟩

/-- Python banker's rounding to an integer. -/
def roundHalfEven (x : ℚ) : ℤ :=
  let f := ⌊x⌋
  if x - f < 1 / 2 then f
  else if (1 : ℚ) / 2 < x - f then f + 1
  else if f % 2 = 0 then f else f + 1

/-- Python `round(x, d)`. -/
def pyRound (x : ℚ) (d : Nat) : ℚ :=
  (roundHalfEven (x * (10 ^ d : ℚ)) : ℚ) / (10 ^ d : ℚ)

/-- Python truthiness of an `Optional[str]`. -/
def pyTruthyOptStr : Option String → Bool
  | none => false
  | some s => s != ""

/-- `_normalize` (rank_position.py lines 12-13):
`"".join(ch for ch in name.lower() if ch.isalnum())`. -/
def pyNormalize (name : String) : String :=
  String.mk ((pyLower name).data.filter Char.isAlphanum)

/-- The three lookup keys tried for one result (rank_position.py lines
41-45). -/
def rpKeys (r : QueryResult) : List String :=
  [r.provider ++ ":" ++ r.query_id ++ ":" ++ toString r.iteration,
    r.provider ++ ":" ++ r.query_id,
    r.query_id]

/-- The `for key in keys: ... if ranked: break` loop (rank_position.py
lines 46-50): first non-empty `ranked_lists_by_response.get(key, [])`. -/
def firstNonemptyRanked (m : List (String × List String)) :
    List String → List String
  | [] => []
  | k :: ks =>
    let ranked := pyDictGetD m k []
    if ranked ≠ [] then ranked else firstNonemptyRanked m ks

def rankedFor (m : List (String × List String)) (r : QueryResult) :
    List String :=
  firstNonemptyRanked m (rpKeys r)

/-- `for idx, name in enumerate(ranked, start=1): ... break`
(rank_position.py lines 58-62): the 1-based position of the first name
matching the target by lowercase or normalized form, 0 if none. -/
def foundPositionGo (targetLower targetNorm : String) :
    List String → Nat → Nat
  | [], _ => 0
  | n :: rest, idx =>
    if pyLower n = targetLower ∨ pyNormalize n = targetNorm then idx
    else foundPositionGo targetLower targetNorm rest (idx + 1)

def foundPosition (profileName : String) (ranked : List String) : Nat :=
  foundPositionGo (pyLower profileName) (pyNormalize profileName) ranked 1

/-- The accumulator variables of the analyzer loop (rank_position.py
lines 33-38). -/
structure RPState where
  positions : List Nat
  weightedSum : ℚ
  totalRanked : Nat
  mentionInRanked : Nat
  providerTotals : List (String × Nat)
  providerWeighted : List (String × ℚ)
  deriving Repr, DecidableEq

def rpInit : RPState := ⟨[], 0, 0, 0, [], []⟩

/-- One iteration of `for r in valid:` (rank_position.py lines 40-69). -/
def rpStep (profileName : String) (m : List (String × List String))
    (st : RPState) (r : QueryResult) : RPState :=
  let ranked := rankedFor m r
  if ranked = [] then st
  else
    let st1 := { st with
      totalRanked := st.totalRanked + 1,
      providerTotals := pyDictSet st.providerTotals r.provider
        (pyDictGetD st.providerTotals r.provider 0 + 1) }
    let fp := foundPosition profileName ranked
    if 0 < fp then
      { st1 with
        mentionInRanked := st1.mentionInRanked + 1,
        positions := st1.positions ++ [fp],
        weightedSum := st1.weightedSum + 1 / (fp : ℚ),
        providerWeighted := pyDictSet st1.providerWeighted r.provider
          (pyDictGetD st1.providerWeighted r.provider 0 + 1 / (fp : ℚ)) }
    else st1

/-- `statistics.mean` over the collected integer positions. -/
def pyMean (l : List Nat) : ℚ :=
  (l.map (fun n => (n : ℚ))).sum / (l.length : ℚ)

/-- `statistics.median` over the collected integer positions. -/
def pyMedian (l : List Nat) : ℚ :=
  let s := l.mergeSort (fun a b => decide (a ≤ b))
  let n := s.length
  if n % 2 = 1 then (s.getD (n / 2) 0 : ℚ)
  else ((s.getD (n / 2 - 1) 0 : ℚ) + (s.getD (n / 2) 0 : ℚ)) / 2

/-- `RankPositionAnalyzer.analyze` (rank_position.py lines 19-96). -/
def rankPositionAnalyze (profileName : String) (results : List QueryResult)
    (rankedLists : List (String × List String)) : RankPositionScore :=
  let valid := results.filter
    (fun r => !(pyTruthyOptStr r.error) && r.response != "")
  if valid = [] then emptyRankPositionScore
  else
    let st := valid.foldl (rpStep profileName rankedLists) rpInit
    let byProvider := st.providerTotals.map (fun kv =>
      (kv.1, if 0 < kv.2
        then pyRound (pyDictGetD st.providerWeighted kv.1 0 / (kv.2 : ℚ)) 4
        else 0))
    let avgPosition := if st.positions ≠ [] then pyMean st.positions else 0
    let medianPosition := if st.positions ≠ [] then pyMedian st.positions else 0
    let top3Rate := if 0 < st.mentionInRanked
      then ((st.positions.countP (fun p => decide (p ≤ 3)) : ℚ)
        / (st.mentionInRanked : ℚ))
      else 0
    let coverage := if 0 < st.totalRanked
      then ((st.mentionInRanked : ℚ) / (st.totalRanked : ℚ)) else 0
    let wv := if 0 < st.totalRanked
      then st.weightedSum / (st.totalRanked : ℚ) else 0
    ⟨st.totalRanked, st.mentionInRanked, pyRound coverage 4,
      pyRound avgPosition 3, pyRound medianPosition 3, pyRound top3Rate 4,
      pyRound wv 4, byProvider⟩

/-- The spec's weighted-visibility formula, stated independently of the
analyzer loop: over the valid responses carrying a ranked list, sum
`1/p` where the target brand appears at position `p` (a ranked response
without the brand contributes 0 but is still counted), divided by the
number of ranked responses. -/
def specWeightedVisibility (profileName : String) (results : List QueryResult)
    (rankedLists : List (String × List String)) : ℚ :=
  let valid := results.filter
    (fun r => !(pyTruthyOptStr r.error) && r.response != "")
  let ranked := valid.filter (fun r => !(rankedFor rankedLists r == []))
  ((ranked.map (fun r =>
    let fp := foundPosition profileName (rankedFor rankedLists r)
    if 0 < fp then 1 / (fp : ℚ) else 0)).sum) / (ranked.length : ℚ)


/-! ## LLM ranked-brand extraction (`utils/text.py`
`extract_ranked_brands_with_llm` and `_canonicalize_brand_name`)

The provider's reply for each batch is modelled as the value the JSON
pipeline produces from its text: `none` when an exception occurs (parse
failure, provider error), otherwise an arbitrary parsed JSON value.
The ranking-signal regex pre-filter is abstracted as a boolean
predicate on the response text; the claim's theorem quantifies over
every such predicate. -/

/-- Python `str.strip()`. -/
def pyStrip (s : String) : String :=
  String.mk (((s.data.dropWhile Char.isWhitespace).reverse.dropWhile
    Char.isWhitespace).reverse)

/-- The character class `[A-Za-z0-9]` of text.py line 323. -/
def isAsciiAlnum (c : Char) : Bool :=
  decide (('A' ≤ c ∧ c ≤ 'Z') ∨ ('a' ≤ c ∧ c ≤ 'z') ∨ ('0' ≤ c ∧ c ≤ '9'))

/-- Maximal runs of `[A-Za-z0-9]` characters — the non-empty pieces of
`re.split(r"[^A-Za-z0-9]+", brand)`. -/
def alnumRunsGo : List Char → List Char → List (List Char)
  | [], acc => if acc = [] then [] else [acc.reverse]
  | c :: rest, acc =>
    if isAsciiAlnum c then alnumRunsGo rest (c :: acc)
    else if acc = [] then alnumRunsGo rest []
    else acc.reverse :: alnumRunsGo rest []

def pyWords (s : String) : List String :=
  (alnumRunsGo s.data []).map String.mk

/-- `_normalize_entity_name` (text.py lines 311-312):
`re.sub(r"[^a-z0-9]+", "", name.lower())`. -/
def pyNormEntity (name : String) : String :=
  String.mk ((pyLower name).data.filter
    (fun c => decide (('a' ≤ c ∧ c ≤ 'z') ∨ ('0' ≤ c ∧ c ≤ '9'))))

/-- `by_lower = {c.lower(): c for c in candidate_brands}`
(text.py line 316). -/
def buildByLower (candidates : List String) : List (String × String) :=
  candidates.foldl (fun m c => pyDictSet m (pyLower c) c) []

/-- `by_norm = {_normalize_entity_name(c): c for c in candidate_brands}`
(text.py line 317). -/
def buildByNorm (candidates : List String) : List (String × String) :=
  candidates.foldl (fun m c => pyDictSet m (pyNormEntity c) c) []

/-- The first character of a word, lowered, when alphanumeric —
`w[0].lower() for w in words if w and w[0].isalnum()` (text.py 326). -/
def wordInitial (w : String) : Option Char :=
  match w.data with
  | [] => none
  | ch :: _ => if isAsciiAlnum ch then some ch.toLower else none

/-- The acronym-counting loop of `_build_candidate_lookup` (text.py
lines 320-331): per multi-word brand, its 2..6-letter acronym is
counted and mapped to the brand. -/
def buildAcronymMaps (candidates : List String) :
    List (String × Nat) × List (String × String) :=
  candidates.foldl (fun st brand =>
    let words := pyWords brand
    if words.length < 2 then st
    else
      let acr := String.mk (words.filterMap wordInitial)
      if 2 ≤ acr.length ∧ acr.length ≤ 6 then
        (pyDictSet st.1 acr (pyDictGetD st.1 acr 0 + 1),
          pyDictSet st.2 acr brand)
      else st) ([], [])

/-- `unique_acronyms` (text.py line 331): acronyms hit by exactly one
brand. -/
def uniqueAcronyms (candidates : List String) : List (String × String) :=
  let maps := buildAcronymMaps candidates
  maps.2.filter (fun kv => pyDictGetD maps.1 kv.1 0 == 1)

/-- `_canonicalize_brand_name` (text.py lines 335-361): strip, then try
the lowercase map, the normalized map, the acronym map, and finally the
fuzzy containment fallback over `by_lower` in insertion order. -/
def canonicalizeBrandName (raw : String)
    (byLower byNorm byAcronym : List (String × String)) : Option String :=
  if pyStrip raw = "" then none
  else
    match pyDictGet? byLower (pyLower (pyStrip raw)) with
    | some c => some c
    | none =>
      match pyDictGet? byNorm (pyNormEntity (pyStrip raw)) with
      | some c => some c
      | none =>
        match pyDictGet? byAcronym (pyLower (pyStrip raw)) with
        | some c => some c
        | none =>
          (byLower.find? (fun kv =>
            strContainsSub kv.1 (pyLower (pyStrip raw)) ||
              strContainsSub (pyLower (pyStrip raw)) kv.1)).map Prod.snd

/-- A parsed Python JSON value (`json.loads` output). -/
inductive PyJson where
  | null
  | bool (b : Bool)
  | num (q : ℚ)
  | str (s : String)
  | arr (items : List PyJson)
  | obj (fields : List (String × PyJson))

/-- The inner `for raw_name in raw_brands:` loop (text.py lines
446-454): canonicalize each string entry, dedupe via `seen`, and stop
as soon as the list reaches `max_brands_per_response` (the length check
is skipped for non-string entries, as after `continue`). -/
def canonLoop (byLower byNorm byAcr : List (String × String)) (maxPer : Nat) :
    List PyJson → List String → List String → List String
  | [], _, acc => acc
  | .str s :: rest, seen, acc =>
    let next :=
      match canonicalizeBrandName s byLower byNorm byAcr with
      | some c => if seen.contains c then (seen, acc) else (c :: seen, acc ++ [c])
      | none => (seen, acc)
    if maxPer ≤ next.2.length then next.2
    else canonLoop byLower byNorm byAcr maxPer rest next.1 next.2
  | _ :: rest, seen, acc => canonLoop byLower byNorm byAcr maxPer rest seen acc

/-- The `for rid, raw_brands in parsed.items():` loop (text.py lines
440-456): list-valued entries overwrite `ranked_map[rid]` with the
canonicalized list, other entries are skipped. -/
def processBatchItems (byLower byNorm byAcr : List (String × String))
    (maxPer : Nat) (fields : List (String × PyJson))
    (rankedMap : List (String × List String)) : List (String × List String) :=
  fields.foldl (fun m kv =>
    match kv.2 with
    | .arr raws => pyDictSet m kv.1 (canonLoop byLower byNorm byAcr maxPer raws [] [])
    | _ => m) rankedMap

/-- `for i in range(0, len(likely_ranked), batch_size)` slicing, with
structural fuel (one unit per batch suffices since every batch consumes
at least one element).  For `n = 0` Python raises `ValueError`; the
claim's theorem therefore assumes `0 < batchSize` and that branch is
never reached there. -/
def chunkListGo {α : Type} : Nat → Nat → List α → List (List α)
  | 0, _, _ => []
  | _ + 1, _, [] => []
  | fuel + 1, n, a :: rest =>
    if n = 0 then []
    else (a :: rest.take (n - 1)) :: chunkListGo fuel n (rest.drop (n - 1))

def chunkList {α : Type} (n : Nat) (l : List α) : List (List α) :=
  chunkListGo l.length n l

/-- One batch of the `for i in range(0, len(likely_ranked), batch_size)`
loop (text.py lines 393-458): query the provider, parse its reply, and
when the parse yields a dict, fold its items into the ranked map; on an
exception (`none`) or a non-dict value, continue with the map
unchanged.  The first component counts processed batches. -/
def batchStep (byLower byNorm byAcr : List (String × String)) (maxPer : Nat)
    (llm : Nat → Option PyJson) (st : Nat × List (String × List String))
    (_batch : List (String × String)) : Nat × List (String × List String) :=
  match llm st.1 with
  | some (.obj fields) =>
    (st.1 + 1, processBatchItems byLower byNorm byAcr maxPer fields st.2)
  | _ => (st.1 + 1, st.2)

/-- `extract_ranked_brands_with_llm` (text.py lines 364-460).  `signal`
stands for `likely_contains_ranking_signal`; `llm b` is the parsed JSON
value obtained from the provider's reply for batch `b` (`none` on any
exception). -/
def extractRankedBrands (items : List (String × String))
    (candidates : List String) (signal : String → Bool)
    (llm : Nat → Option PyJson) (batchSize maxPer : Nat) :
    List (String × List String) :=
  if items = [] ∨ candidates = [] then []
  else
    let ranked0 := items.foldl (fun m it => pyDictSet m it.1 []) []
    let likely := items.filter (fun it => signal it.2)
    if likely = [] then ranked0
    else
      ((chunkList batchSize likely).foldl
        (batchStep (buildByLower candidates) (buildByNorm candidates)
          (uniqueAcronyms candidates) maxPer llm)
        (0, ranked0)).2


theorem runStages_append_of_clean {α : Type} (hooks : HookTable α)
    (pre rest : List (PStage α)) (c c1 : RunContext α)
    (h : runStagesClean hooks pre c = some c1) :
    runStages hooks (pre ++ rest) c =
      ⟨(runStages hooks rest c1).ctx, (runStages hooks rest c1).raised,
        pre.map PStage.name ++ (runStages hooks rest c1).executed⟩ := by
  induction pre generalizing c with
  | nil =>
    simp only [runStagesClean, Option.some.injEq] at h
    subst h
    simp [runStages]
  | cons s pre ih =>
    simp only [runStagesClean] at h
    cases hs : s.exec c with
    | ok c2 =>
      rw [hs] at h
      have := ih (applyHook hooks s.name c2) h
      simp [runStages, hs, this]
    | exc c2 msg =>
      rw [hs] at h
      exact absurd h (by simp)


theorem getD_eq_getElem_of_lt {α : Type} (l : List α) (i : Nat) (d : α)
    (h : i < l.length) : l.getD i d = l.get ⟨i, h⟩ := by
  simp [List.getD_eq_getElem?_getD, List.getElem?_eq_getElem h]

theorem lt_length_of_getD_running (s : ExecState) (i : Nat)
    (h : s.phases.getD i .done = .running) : i < s.phases.length := by
  by_contra hge
  rw [List.getD_eq_getElem?_getD, List.getElem?_eq_none (by omega)] at h
  exact absurd h (by simp)

theorem lt_length_of_getD_pending (s : ExecState) (i : Nat)
    (h : s.phases.getD i .done = .pending) : i < s.phases.length := by
  by_contra hge
  rw [List.getD_eq_getElem?_getD, List.getElem?_eq_none (by omega)] at h
  exact absurd h (by simp)

theorem execInv_init (tasks : List QueryTask) (outcome : Nat → TaskOutcome)
    (concurrency : Nat) :
    ExecInv tasks outcome concurrency (initExecState tasks.length concurrency) := by
  refine ⟨by simp [initExecState], ?_, [], by simp, ?_, by simp, by simp [initExecState],
    by simp [initExecState], by simp [initExecState]⟩
  · simp [countRunning, initExecState, List.countP_replicate]
  · intro i hi
    simp [initExecState, List.getD_eq_getElem?_getD, List.getElem?_replicate, hi]

theorem execInv_step (tasks : List QueryTask) (outcome : Nat → TaskOutcome)
    (concurrency : Nat) (s s1 : ExecState) (e : ExecEvent)
    (hinv : ExecInv tasks outcome concurrency s)
    (hstep : execStep tasks outcome s e = some s1) :
    ExecInv tasks outcome concurrency s1 := by
  obtain ⟨hlen, hsem, ds, hnd, hmem, hlt, hres, hcc, hfc⟩ := hinv
  cases e with
  | acquire i =>
    simp only [execStep] at hstep
    split at hstep
    case isFalse => exact absurd hstep (by simp)
    case isTrue hcond =>
      obtain ⟨hpend, hsempos⟩ := hcond
      have hi : i < s.phases.length := lt_length_of_getD_pending s i hpend
      have hgi : s.phases.get ⟨i, hi⟩ = .pending := by
        rw [← getD_eq_getElem_of_lt s.phases i .done hi]; exact hpend
      obtain rfl : _ = s1 := Option.some.inj hstep
      refine ⟨by simpa using hlen, ?_, ds, hnd, ?_, hlt, hres, hcc, hfc⟩
      · have hcp := List.countP_set (fun x => decide (x = TaskPhase.running))
          s.phases i .running hi
        have hgx : s.phases[i] = TaskPhase.pending := hgi
        rw [hgx] at hcp
        simp only [decide_eq_true_eq] at hcp
        simp at hcp
        simp only [countRunning] at hsem ⊢
        simp only [hcp]
        omega
      · intro j hj
        by_cases hij : j = i
        · subst hij
          have hleft : (s.phases.set j .running).getD j .pending = .running := by
            rw [List.getD_eq_getElem?_getD, List.getElem?_set_self (by simpa using hi)]
            rfl
          have hright : j ∉ ds := by
            intro hmemj
            have := (hmem j hj).2 hmemj
            rw [getD_eq_getElem_of_lt s.phases j .pending hi] at this
            rw [hgi] at this
            exact absurd this (by simp)
          rw [hleft]
          simp [hright]
        · have : (s.phases.set i .running).getD j .pending = s.phases.getD j .pending := by
            rw [List.getD_eq_getElem?_getD, List.getD_eq_getElem?_getD,
              List.getElem?_set_ne (by omega)]
          rw [this]
          exact hmem j hj
  | complete i =>
    simp only [execStep] at hstep
    split at hstep
    case isFalse => exact absurd hstep (by simp)
    case isTrue hcond =>
      have hi : i < s.phases.length := lt_length_of_getD_running s i hcond
      have hgi : s.phases.get ⟨i, hi⟩ = .running := by
        rw [← getD_eq_getElem_of_lt s.phases i .done hi]; exact hcond
      have hinotin : i ∉ ds := by
        intro hmemi
        have := (hmem i (hlen ▸ hi)).2 hmemi
        rw [getD_eq_getElem_of_lt s.phases i .pending hi, hgi] at this
        exact absurd this (by simp)
      obtain rfl : _ = s1 := Option.some.inj hstep
      refine ⟨by simpa using hlen, ?_, ds ++ [i], ?_, ?_, ?_, ?_, ?_, ?_⟩
      · have hcp := List.countP_set (fun x => decide (x = TaskPhase.running))
          s.phases i .done hi
        have hgx : s.phases[i] = TaskPhase.running := hgi
        have hpos : 0 < countRunning s := by
          simp only [countRunning]
          rw [List.countP_pos_iff]
          exact ⟨TaskPhase.running, hgx ▸ List.getElem_mem hi, by simp⟩
        rw [hgx] at hcp
        simp only [decide_eq_true_eq] at hcp
        simp at hcp
        simp only [countRunning] at hsem hpos ⊢
        simp only [hcp]
        omega
      · simp only [List.nodup_append]
        exact ⟨hnd, by simp, by simpa using hinotin⟩
      · intro j hj
        by_cases hij : j = i
        · subst hij
          have hleft : (s.phases.set j .done).getD j .pending = .done := by
            rw [List.getD_eq_getElem?_getD, List.getElem?_set_self (by simpa using hi)]
            rfl
          rw [hleft]
          simp
        · have heq : (s.phases.set i .done).getD j .pending = s.phases.getD j .pending := by
            rw [List.getD_eq_getElem?_getD, List.getD_eq_getElem?_getD,
              List.getElem?_set_ne (by omega)]
          rw [heq]
          rw [hmem j hj]
          simp [hij]
      · intro j hj
        rcases List.mem_append.1 hj with hj1 | hj2
        · exact hlt j hj1
        · simp at hj2
          subst hj2
          exact hlen ▸ hi
      · simp [hres]
      · simp only [List.filter_append, List.length_append, hcc]
        by_cases hsucc : (outcome i).isSuccess <;> simp [hsucc]
      · simp only [List.filter_append, List.length_append, hfc]
        by_cases hsucc : (outcome i).isSuccess <;> simp [hsucc]

theorem execInv_trace (tasks : List QueryTask) (outcome : Nat → TaskOutcome)
    (concurrency : Nat) :
    ∀ (tr : List ExecEvent) (s s1 : ExecState),
      runExecTrace tasks outcome tr s = some s1 →
      ExecInv tasks outcome concurrency s →
      ExecInv tasks outcome concurrency s1 := by
  intro tr
  induction tr with
  | nil =>
    intro s s1 hrun hinv
    simp only [runExecTrace, Option.some.injEq] at hrun
    exact hrun ▸ hinv
  | cons e es ih =>
    intro s s1 hrun hinv
    simp only [runExecTrace] at hrun
    cases hstep : execStep tasks outcome s e with
    | none => rw [hstep] at hrun; exact absurd hrun (by simp)
    | some s2 =>
      rw [hstep] at hrun
      exact ih s2 s1 hrun (execInv_step tasks outcome concurrency s s2 e hinv hstep)



theorem resultKey_taskResult (t : QueryTask) (o : TaskOutcome) :
    resultKey (taskResult t o) = taskKey t := by
  cases o <;> rfl

theorem range_map_getD {α β : Type} (l : List α) (d : α) (f : α → β) :
    (List.range l.length).map (fun i => f (l.getD i d)) = l.map f := by
  apply List.ext_getElem
  · simp
  · intro i h1 h2
    simp only [List.getElem_map, List.getElem_range, List.getD_eq_getElem?_getD]
    rw [List.getElem?_eq_getElem (by simpa using h2)]
    rfl

theorem flatMap_map_length {α β γ : Type} (l1 : List α) (l2 : List β)
    (f : α → β → γ) :
    (l1.flatMap fun a => l2.map (f a)).length = l1.length * l2.length := by
  induction l1 with
  | nil => simp
  | cons a t ih => simp [ih, Nat.succ_mul]; ring

theorem flatMap_const_length {α β : Type} (l : List α) (g : α → List β) (c : Nat)
    (h : ∀ a ∈ l, (g a).length = c) :
    (l.flatMap g).length = l.length * c := by
  induction l with
  | nil => simp
  | cons a t ih =>
    simp only [List.flatMap_cons, List.length_append, List.length_cons]
    rw [h a (by simp), ih (fun x hx => h x (by simp [hx]))]
    ring

theorem taskList_length (queries : List Query) (providers : List ProviderId)
    (iterations : Nat) :
    (taskList queries providers iterations).length =
      queries.length * providers.length * iterations := by
  rw [taskList,
    flatMap_const_length _ _ (queries.length * providers.length)
      (fun a _ => flatMap_map_length queries providers _)]
  simp
  ring

theorem allDone_iff (s : ExecState) :
    allDone s = true ↔
      ∀ j, j < s.phases.length → s.phases.getD j .pending = .done := by
  simp only [allDone, List.all_eq_true, decide_eq_true_eq]
  constructor
  · intro h j hj
    rw [getD_eq_getElem_of_lt s.phases j .pending hj, List.get_eq_getElem]
    exact h _ (List.getElem_mem hj)
  · intro h x hx
    obtain ⟨i, hi, rfl⟩ := List.mem_iff_getElem.mp hx
    have := h i hi
    rwa [getD_eq_getElem_of_lt s.phases i .pending hi] at this

theorem exec_final_results_perm (tasks : List QueryTask)
    (outcome : Nat → TaskOutcome) (concurrency : Nat)
    (trace : List ExecEvent) (final : ExecState)
    (hrun : runExecTrace tasks outcome trace
      (initExecState tasks.length concurrency) = some final)
    (hdone : allDone final = true) :
    final.results.Perm ((List.range tasks.length).map
      (fun i => taskResult (tasks.getD i dummyTask) (outcome i))) := by
  have hinv := execInv_trace tasks outcome concurrency trace _ final hrun
    (execInv_init tasks outcome concurrency)
  obtain ⟨hlen, hsem, ds, hnd, hmem, hlt, hres, hcc, hfc⟩ := hinv
  have hall := (allDone_iff final).mp hdone
  have hdsperm : ds.Perm (List.range tasks.length) := by
    apply List.perm_of_nodup_nodup_toFinset_eq hnd (List.nodup_range _)
    apply Finset.ext
    intro j
    simp only [List.mem_toFinset, List.mem_range]
    constructor
    · intro hj
      exact hlt j hj
    · intro hj
      exact (hmem j hj).mp (hall j (by omega))
  rw [hres]
  exact hdsperm.map _

theorem exec_final_keys_perm (tasks : List QueryTask)
    (outcome : Nat → TaskOutcome) (concurrency : Nat)
    (trace : List ExecEvent) (final : ExecState)
    (hrun : runExecTrace tasks outcome trace
      (initExecState tasks.length concurrency) = some final)
    (hdone : allDone final = true) :
    (final.results.map resultKey).Perm (tasks.map taskKey) := by
  have hperm := (exec_final_results_perm tasks outcome concurrency trace final
    hrun hdone).map resultKey
  rw [List.map_map] at hperm
  have h2 : (resultKey ∘ fun i => taskResult (tasks.getD i dummyTask) (outcome i)) =
      fun i => taskKey (tasks.getD i dummyTask) := by
    funext i
    simp [Function.comp, resultKey_taskResult]
  rw [h2, range_map_getD] at hperm
  exact hperm

theorem exec_final_mem (tasks : List QueryTask)
    (outcome : Nat → TaskOutcome) (concurrency : Nat)
    (trace : List ExecEvent) (final : ExecState)
    (hrun : runExecTrace tasks outcome trace
      (initExecState tasks.length concurrency) = some final)
    (hdone : allDone final = true) (j : Nat) (hj : j < tasks.length) :
    taskResult (tasks.getD j dummyTask) (outcome j) ∈ final.results := by
  have hperm := exec_final_results_perm tasks outcome concurrency trace final hrun hdone
  rw [hperm.mem_iff]
  exact List.mem_map.mpr ⟨j, by simpa using hj, rfl⟩

theorem taskList_map_taskKey (queries : List Query) (providers : List ProviderId)
    (iterations : Nat) :
    (taskList queries providers iterations).map taskKey =
      (List.range iterations).flatMap fun it =>
        queries.flatMap fun q =>
          providers.map fun p => (q.id, p.name, it + 1) := by
  simp only [taskList, List.map_flatMap, List.map_map]
  rfl

theorem taskList_keys_nodup (queries : List Query) (providers : List ProviderId)
    (iterations : Nat)
    (hq : (queries.map Query.id).Nodup)
    (hp : (providers.map ProviderId.name).Nodup) :
    ((taskList queries providers iterations).map taskKey).Nodup := by
  rw [taskList_map_taskKey]
  rw [List.nodup_flatMap]
  constructor
  · intro it _
    rw [List.nodup_flatMap]
    constructor
    · intro q _
      have heq : (providers.map fun p => (q.id, p.name, it + 1)) =
          (providers.map ProviderId.name).map fun nm => (q.id, nm, it + 1) := by
        simp [List.map_map, Function.comp]
      rw [heq]
      apply hp.map
      intro a b hab
      have hab2 : (q.id, a, it + 1) = (q.id, b, it + 1) := hab
      simpa using hab2
    · have hqpair : queries.Pairwise (fun a b => a.id ≠ b.id) := by
        have := hq
        rw [List.Nodup, List.pairwise_map] at this
        exact this
      apply hqpair.imp
      intro a b hne x hxa hxb
      simp only [List.mem_map] at hxa hxb
      obtain ⟨pa, _, hxaeq⟩ := hxa
      obtain ⟨pb, _, hxbeq⟩ := hxb
      rw [← hxaeq] at hxbeq
      exact hne (congrArg Prod.fst hxbeq).symm
  · have hrpair : (List.range iterations).Pairwise (· ≠ ·) := List.nodup_range _
    apply hrpair.imp
    intro a b hne x hxa hxb
    simp only [List.mem_flatMap, List.mem_map] at hxa hxb
    obtain ⟨qa, _, pa, _, hxaeq⟩ := hxa
    obtain ⟨qb, _, pb, _, hxbeq⟩ := hxb
    rw [← hxaeq] at hxbeq
    have h3 : b + 1 = a + 1 := congrArg (fun z => z.2.2) hxbeq
    omega

/-- The sequential schedule: acquire and complete each of tasks
`start, start+1, ...` in turn. -/
def seqFrom (start m : Nat) : List ExecEvent :=
  (List.range' start m).flatMap fun i => [.acquire i, .complete i]

theorem run_seqFrom (tasks : List QueryTask) (outcome : Nat → TaskOutcome) :
    ∀ (m start : Nat) (s : ExecState),
      0 < s.sem →
      s.phases.length = start + m →
      (∀ j, j < start → s.phases.getD j .pending = .done) →
      (∀ j, start ≤ j → j < s.phases.length → s.phases.getD j .done = .pending) →
      ∃ final, runExecTrace tasks outcome (seqFrom start m) s = some final ∧
        allDone final = true := by
  intro m
  induction m with
  | zero =>
    intro start s hsem hlen hdonelow _
    refine ⟨s, by simp [seqFrom, runExecTrace], ?_⟩
    rw [allDone_iff]
    intro j hj
    exact hdonelow j (by omega)
  | succ m ih =>
    intro start s hsem hlen hdonelow hpend
    have hstartlt : start < s.phases.length := by omega
    have hpendstart : s.phases.getD start .done = .pending :=
      hpend start (le_refl _) hstartlt
    have hseq : seqFrom start (m + 1) =
        .acquire start :: .complete start :: seqFrom (start + 1) m := by
      simp [seqFrom, List.range'_succ]
    have hstep1 : execStep tasks outcome s (.acquire start) =
        some { s with sem := s.sem - 1, phases := s.phases.set start .running } := by
      simp only [execStep]
      rw [if_pos ⟨hpendstart, hsem⟩]
    have hrun2 : (s.phases.set start .running).getD start .done = .running := by
      simp only [List.getD_eq_getElem?_getD]
      rw [List.getElem?_set_self (by simpa using hstartlt)]
      rfl
    have hstep2 : execStep tasks outcome
        { s with sem := s.sem - 1, phases := s.phases.set start .running }
        (.complete start) =
        some { s with
          sem := s.sem - 1 + 1,
          phases := (s.phases.set start .running).set start .done,
          results := s.results ++ [taskResult (tasks.getD start dummyTask) (outcome start)],
          completedCnt := s.completedCnt + (if (outcome start).isSuccess then 1 else 0),
          failedCnt := s.failedCnt + (if (outcome start).isSuccess then 0 else 1) } := by
      simp only [execStep]
      rw [if_pos hrun2]
    obtain ⟨final, hfin, hdone⟩ := ih (start + 1)
      { s with
        sem := s.sem - 1 + 1,
        phases := (s.phases.set start .running).set start .done,
        results := s.results ++ [taskResult (tasks.getD start dummyTask) (outcome start)],
        completedCnt := s.completedCnt + (if (outcome start).isSuccess then 1 else 0),
        failedCnt := s.failedCnt + (if (outcome start).isSuccess then 0 else 1) }
      (by show 0 < s.sem - 1 + 1; omega)
      (by
        show ((s.phases.set start .running).set start .done).length = start + 1 + m
        simp
        omega)
      (by
        intro j hj
        rw [List.set_set]
        by_cases hjs : j = start
        · subst hjs
          simp only [List.getD_eq_getElem?_getD]
          rw [List.getElem?_set_self (by simpa using hstartlt)]
          rfl
        · simp only [List.getD_eq_getElem?_getD]
          rw [List.getElem?_set_ne (by omega)]
          have := hdonelow j (by omega)
          simpa [List.getD_eq_getElem?_getD] using this)
      (by
        intro j hjge hjlt
        rw [List.set_set]
        simp only [List.getD_eq_getElem?_getD]
        rw [List.getElem?_set_ne (by omega)]
        have := hpend j (by omega) (by simpa using hjlt)
        simpa [List.getD_eq_getElem?_getD] using this)
    refine ⟨final, ?_, hdone⟩
    rw [hseq]
    simp only [runExecTrace, hstep1, hstep2]
    exact hfin

/-- C6: At no point during the execution fan-out are more than
`concurrency` provider query calls simultaneously in flight: in every
state reachable under any interleaving of the task steps, the number of
tasks between semaphore acquisition and release is at most the
configured concurrency. -/
theorem execution_concurrency_bound
    (queries : List Query) (providers : List ProviderId)
    (iterations concurrency : Nat) (outcome : Nat → TaskOutcome)
    (trace : List ExecEvent) (s : ExecState)
    (hrun : runExecTrace (taskList queries providers iterations) outcome trace
      (initExecState (taskList queries providers iterations).length concurrency)
        = some s) :
    countRunning s ≤ concurrency := by
  have hinv := execInv_trace (taskList queries providers iterations) outcome
    concurrency trace _ s hrun
    (execInv_init (taskList queries providers iterations) outcome concurrency)
  obtain ⟨_, hsem, _⟩ := hinv
  omega

theorem execution_concurrency_bound_witness :
    countRunning ⟨1, [.running], [], 0, 0⟩ ≤ 2 :=
  execution_concurrency_bound [⟨"q1", "what"⟩] [⟨"openai"⟩] 1 2
    (fun _ => .success "m" "resp" 3 none "t0") [.acquire 0]
    ⟨1, [.running], [], 0, 0⟩ (by decide)

/-- C1: for every list of N queries, M providers and K iterations, a
finished execution fan-out produces exactly N·M·K `QueryResult`s — the
multiset of (query, provider, iteration) keys is exactly the task cross
product, with no duplicate and no drop — and `total_queries` is N·M·K,
for every concurrency value and every interleaving.  (As in the code,
queries are identified by `id` and providers by `name`; the
no-duplicate guarantee accordingly assumes the input ids and names are
pairwise distinct, which the registry dict and query generator ensure.) -/
theorem execution_fanout_exactly_one_result_per_task
    (queries : List Query) (providers : List ProviderId)
    (iterations concurrency : Nat) (outcome : Nat → TaskOutcome)
    (trace : List ExecEvent) (final : ExecState)
    (rid brand sa ca : String)
    (hq : (queries.map Query.id).Nodup)
    (hp : (providers.map ProviderId.name).Nodup)
    (hrun : runExecTrace (taskList queries providers iterations) outcome trace
      (initExecState (taskList queries providers iterations).length concurrency)
        = some final)
    (hdone : allDone final = true) :
    (mkExecutionRun rid brand queries providers iterations sa ca final).results.length
      = queries.length * providers.length * iterations ∧
    (mkExecutionRun rid brand queries providers iterations sa ca final).total_queries
      = queries.length * providers.length * iterations ∧
    ((mkExecutionRun rid brand queries providers iterations sa ca final).results.map
      resultKey).Perm ((taskList queries providers iterations).map taskKey) ∧
    ((mkExecutionRun rid brand queries providers iterations sa ca final).results.map
      resultKey).Nodup := by
  have hkeys := exec_final_keys_perm (taskList queries providers iterations)
    outcome concurrency trace final hrun hdone
  refine ⟨?_, rfl, hkeys, ?_⟩
  · show final.results.length = _
    have hlen := hkeys.length_eq
    rw [List.length_map, List.length_map, taskList_length] at hlen
    exact hlen
  · exact (taskList_keys_nodup queries providers iterations hq hp).perm hkeys.symm

theorem execution_fanout_exactly_one_result_per_task_witness :
    (mkExecutionRun "r" "b" [⟨"q1", "hello"⟩] [⟨"openai"⟩] 1 "s0" "c0"
      ⟨1, [.done], [⟨"q1", "hello", "openai", "m", "resp", 3, none, 1, "t0", none⟩],
        1, 0⟩).results.length = 1 * 1 * 1 ∧
    (mkExecutionRun "r" "b" [⟨"q1", "hello"⟩] [⟨"openai"⟩] 1 "s0" "c0"
      ⟨1, [.done], [⟨"q1", "hello", "openai", "m", "resp", 3, none, 1, "t0", none⟩],
        1, 0⟩).total_queries = 1 * 1 * 1 ∧
    ((mkExecutionRun "r" "b" [⟨"q1", "hello"⟩] [⟨"openai"⟩] 1 "s0" "c0"
      ⟨1, [.done], [⟨"q1", "hello", "openai", "m", "resp", 3, none, 1, "t0", none⟩],
        1, 0⟩).results.map resultKey).Perm
      ((taskList [⟨"q1", "hello"⟩] [⟨"openai"⟩] 1).map taskKey) ∧
    ((mkExecutionRun "r" "b" [⟨"q1", "hello"⟩] [⟨"openai"⟩] 1 "s0" "c0"
      ⟨1, [.done], [⟨"q1", "hello", "openai", "m", "resp", 3, none, 1, "t0", none⟩],
        1, 0⟩).results.map resultKey).Nodup :=
  execution_fanout_exactly_one_result_per_task [⟨"q1", "hello"⟩] [⟨"openai"⟩] 1 1
    (fun _ => .success "m" "resp" 3 none "t0") [.acquire 0, .complete 0]
    ⟨1, [.done], [⟨"q1", "hello", "openai", "m", "resp", 3, none, 1, "t0", none⟩], 1, 0⟩
    "r" "b" "s0" "c0" (by decide) (by decide) (by decide) (by decide)

/-- C2: a task whose provider call raises (any exception, including the
hard timeout) produces a `QueryResult` with `error` set and empty
response; every sibling task still produces its own result in every
completed schedule, and completion is always reachable — a failing
outcome can never abort, cancel, or drop a sibling's result. -/
theorem execution_task_failure_isolated
    (queries : List Query) (providers : List ProviderId)
    (iterations concurrency : Nat) (outcome : Nat → TaskOutcome)
    (trace : List ExecEvent) (final : ExecState) (i : Nat) (msg ts : String)
    (hrun : runExecTrace (taskList queries providers iterations) outcome trace
      (initExecState (taskList queries providers iterations).length concurrency)
        = some final)
    (hdone : allDone final = true)
    (hi : i < (taskList queries providers iterations).length)
    (hfail : outcome i = .failure msg ts) :
    (taskResult ((taskList queries providers iterations).getD i dummyTask)
      (outcome i)).error = some msg ∧
    (taskResult ((taskList queries providers iterations).getD i dummyTask)
      (outcome i)).response = "" ∧
    taskResult ((taskList queries providers iterations).getD i dummyTask)
      (outcome i) ∈ final.results ∧
    (∀ j, j < (taskList queries providers iterations).length →
      taskResult ((taskList queries providers iterations).getD j dummyTask)
        (outcome j) ∈ final.results) ∧
    final.results.length = (taskList queries providers iterations).length ∧
    (0 < concurrency →
      ∃ tr2 fin2,
        runExecTrace (taskList queries providers iterations) outcome tr2
          (initExecState (taskList queries providers iterations).length concurrency)
            = some fin2 ∧
        allDone fin2 = true) := by
  refine ⟨by rw [hfail]; rfl, by rw [hfail]; rfl,
    exec_final_mem (taskList queries providers iterations) outcome concurrency
      trace final hrun hdone i hi,
    fun j hj => exec_final_mem (taskList queries providers iterations) outcome
      concurrency trace final hrun hdone j hj, ?_, ?_⟩
  · have hlen := (exec_final_results_perm (taskList queries providers iterations)
      outcome concurrency trace final hrun hdone).length_eq
    simpa using hlen
  · intro hc
    obtain ⟨fin2, hrun2, hdone2⟩ := run_seqFrom
      (taskList queries providers iterations) outcome
      (taskList queries providers iterations).length 0
      (initExecState (taskList queries providers iterations).length concurrency)
      (by simpa [initExecState] using hc)
      (by simp [initExecState])
      (by intro j hj; omega)
      (by
        intro j _ hjlt
        simp only [initExecState] at hjlt ⊢
        simp only [List.getD_eq_getElem?_getD]
        rw [List.getElem?_replicate_of_lt (by simpa using hjlt)]
        rfl)
    exact ⟨seqFrom 0 (taskList queries providers iterations).length, fin2, hrun2, hdone2⟩

theorem execution_task_failure_isolated_witness :
    (taskResult ((taskList [⟨"q1", "hello"⟩] [⟨"p1"⟩, ⟨"p2"⟩] 1).getD 0 dummyTask)
      ((fun i => if i = 0 then TaskOutcome.failure "boom" "t0"
        else TaskOutcome.success "m" "ok" 2 none "t1") 0)).error = some "boom" ∧
    (taskResult ((taskList [⟨"q1", "hello"⟩] [⟨"p1"⟩, ⟨"p2"⟩] 1).getD 0 dummyTask)
      ((fun i => if i = 0 then TaskOutcome.failure "boom" "t0"
        else TaskOutcome.success "m" "ok" 2 none "t1") 0)).response = "" ∧
    taskResult ((taskList [⟨"q1", "hello"⟩] [⟨"p1"⟩, ⟨"p2"⟩] 1).getD 0 dummyTask)
      ((fun i => if i = 0 then TaskOutcome.failure "boom" "t0"
        else TaskOutcome.success "m" "ok" 2 none "t1") 0) ∈
      (⟨1, [.done, .done],
        [⟨"q1", "hello", "p1", "unknown", "", 0, none, 1, "t0", some "boom"⟩,
         ⟨"q1", "hello", "p2", "m", "ok", 2, none, 1, "t1", none⟩], 1, 1⟩ : ExecState).results ∧
    (∀ j, j < (taskList [⟨"q1", "hello"⟩] [⟨"p1"⟩, ⟨"p2"⟩] 1).length →
      taskResult ((taskList [⟨"q1", "hello"⟩] [⟨"p1"⟩, ⟨"p2"⟩] 1).getD j dummyTask)
        ((fun i => if i = 0 then TaskOutcome.failure "boom" "t0"
          else TaskOutcome.success "m" "ok" 2 none "t1") j) ∈
        (⟨1, [.done, .done],
          [⟨"q1", "hello", "p1", "unknown", "", 0, none, 1, "t0", some "boom"⟩,
           ⟨"q1", "hello", "p2", "m", "ok", 2, none, 1, "t1", none⟩], 1, 1⟩ : ExecState).results) ∧
    (⟨1, [.done, .done],
      [⟨"q1", "hello", "p1", "unknown", "", 0, none, 1, "t0", some "boom"⟩,
       ⟨"q1", "hello", "p2", "m", "ok", 2, none, 1, "t1", none⟩], 1, 1⟩ : ExecState).results.length
      = (taskList [⟨"q1", "hello"⟩] [⟨"p1"⟩, ⟨"p2"⟩] 1).length ∧
    (0 < 1 →
      ∃ tr2 fin2,
        runExecTrace (taskList [⟨"q1", "hello"⟩] [⟨"p1"⟩, ⟨"p2"⟩] 1)
          (fun i => if i = 0 then TaskOutcome.failure "boom" "t0"
            else TaskOutcome.success "m" "ok" 2 none "t1") tr2
          (initExecState (taskList [⟨"q1", "hello"⟩] [⟨"p1"⟩, ⟨"p2"⟩] 1).length 1)
            = some fin2 ∧
        allDone fin2 = true) :=
  execution_task_failure_isolated [⟨"q1", "hello"⟩] [⟨"p1"⟩, ⟨"p2"⟩] 1 1
    (fun i => if i = 0 then TaskOutcome.failure "boom" "t0"
      else TaskOutcome.success "m" "ok" 2 none "t1")
    [.acquire 0, .complete 0, .acquire 1, .complete 1]
    ⟨1, [.done, .done],
      [⟨"q1", "hello", "p1", "unknown", "", 0, none, 1, "t0", some "boom"⟩,
       ⟨"q1", "hello", "p2", "m", "ok", 2, none, 1, "t1", none⟩], 1, 1⟩
    0 "boom" "t0" (by decide) (by decide) (by decide) (by decide)

/-- C4 counterexample: with zero tasks (empty query list) the fan-out
finishes with zero successes and zero failures, and stage.py line 117
derives status `"completed"`, whereas the claim requires `"failed"`
whenever there are zero successes and forbids `"completed"` without at
least one success. -/
theorem execution_status_claim_counterexample :
    runExecTrace (taskList [] [⟨"p"⟩] 1) (fun _ => .failure "" "") []
      (initExecState (taskList [] [⟨"p"⟩] 1).length 4) =
      some (initExecState (taskList [] [⟨"p"⟩] 1).length 4) ∧
    allDone (initExecState (taskList [] [⟨"p"⟩] 1).length 4) = true ∧
    (mkExecutionRun "r" "b" [] [⟨"p"⟩] 1 "s" "c"
      (initExecState (taskList [] [⟨"p"⟩] 1).length 4)).completed_queries = 0 ∧
    (mkExecutionRun "r" "b" [] [⟨"p"⟩] 1 "s" "c"
      (initExecState (taskList [] [⟨"p"⟩] 1).length 4)).failed_queries = 0 ∧
    (mkExecutionRun "r" "b" [] [⟨"p"⟩] 1 "s" "c"
      (initExecState (taskList [] [⟨"p"⟩] 1).length 4)).status = "completed" ∧
    ¬((mkExecutionRun "r" "b" [] [⟨"p"⟩] 1 "s" "c"
        (initExecState (taskList [] [⟨"p"⟩] 1).length 4)).status = "completed" ↔
      ((mkExecutionRun "r" "b" [] [⟨"p"⟩] 1 "s" "c"
        (initExecState (taskList [] [⟨"p"⟩] 1).length 4)).failed_queries = 0 ∧
       1 ≤ (mkExecutionRun "r" "b" [] [⟨"p"⟩] 1 "s" "c"
        (initExecState (taskList [] [⟨"p"⟩] 1).length 4)).completed_queries)) := by
  refine ⟨rfl, rfl, rfl, rfl, rfl, ?_⟩
  intro hiff
  exact absurd (hiff.mp rfl).2 (by decide)

/-- C4 (amended): the derived status is `"completed"` iff there are
zero failures (including the degenerate zero-task run), `"failed"` iff
there are zero successes and at least one failure, and `"partial"`
otherwise (at least one success and at least one failure). -/
theorem execution_status_derivation
    (rid brand sa ca : String) (queries : List Query)
    (providers : List ProviderId) (iterations : Nat) (s : ExecState) :
    (mkExecutionRun rid brand queries providers iterations sa ca s).status
      = statusOf s.completedCnt s.failedCnt ∧
    ∀ completed failed : Nat,
      (statusOf completed failed = "completed" ↔ failed = 0) ∧
      (statusOf completed failed = "partial" ↔ 0 < completed ∧ failed ≠ 0) ∧
      (statusOf completed failed = "failed" ↔ completed = 0 ∧ failed ≠ 0) := by
  refine ⟨rfl, ?_⟩
  intro c f
  by_cases hf : f = 0 <;> rcases Nat.eq_zero_or_pos c with hc | hc <;>
    simp [statusOf, hf, hc, Nat.pos_iff_ne_zero] <;> omega

theorem runStages_of_clean {α : Type} (hooks : HookTable α)
    (stages : List (PStage α)) (c c1 : RunContext α)
    (h : runStagesClean hooks stages c = some c1) :
    runStages hooks stages c =
      ⟨{ c1 with status := "completed" }, none, stages.map PStage.name⟩ := by
  induction stages generalizing c with
  | nil =>
    simp only [runStagesClean, Option.some.injEq] at h
    subst h
    simp [runStages]
  | cons s rest ih =>
    simp only [runStagesClean] at h
    cases hs : s.exec c with
    | ok cok =>
      rw [hs] at h
      have := ih _ h
      simp [runStages, hs, this]
    | exc c2 msg =>
      rw [hs] at h
      exact absurd h (by simp)

/-- C9: if a stage's `execute` raises, `Pipeline.run` marks the context
failed, appends `"[stage_name] message"` to its errors, re-raises the
exception to the caller, and runs no later stage; if every registered
stage completes, the context status is set to `"completed"`. -/
theorem pipeline_stage_error_handling :
    (∀ (α : Type) (hooks : HookTable α) (pre : List (PStage α)) (s : PStage α)
      (post : List (PStage α)) (ctx c1 c2 : RunContext α) (msg : String),
      runStagesClean hooks pre { ctx with status := "running" } = some c1 →
      s.exec c1 = .exc c2 msg →
      (pipelineRun (pre ++ s :: post) hooks ctx).raised = some msg ∧
      (pipelineRun (pre ++ s :: post) hooks ctx).ctx.status = "failed" ∧
      (pipelineRun (pre ++ s :: post) hooks ctx).ctx.errors
        = c2.errors ++ ["[" ++ s.name ++ "] " ++ msg] ∧
      (pipelineRun (pre ++ s :: post) hooks ctx).executed
        = pre.map PStage.name ++ [s.name]) ∧
    (∀ (α : Type) (hooks : HookTable α) (stages : List (PStage α))
      (ctx c1 : RunContext α),
      runStagesClean hooks stages { ctx with status := "running" } = some c1 →
      pipelineRun stages hooks ctx =
        ⟨{ c1 with status := "completed" }, none, stages.map PStage.name⟩) := by
  constructor
  · intro α hooks pre s post ctx c1 c2 msg hpre hexc
    have happ := runStages_append_of_clean hooks pre (s :: post) _ c1 hpre
    have hfail : runStages hooks (s :: post) c1 =
        ⟨{ c2 with
            status := "failed",
            errors := c2.errors ++ ["[" ++ s.name ++ "] " ++ msg] },
          some msg, [s.name]⟩ := by
      simp [runStages, hexc]
    rw [pipelineRun, happ, hfail]
    exact ⟨rfl, rfl, rfl, rfl⟩
  · intro α hooks stages ctx c1 hclean
    exact runStages_of_clean hooks stages _ c1 hclean

theorem pipeline_stage_error_handling_witness :
    (pipelineRun
      ([⟨"research", fun c => .ok { c with data := c.data + 1 }⟩] ++
        ⟨"execution", fun c => .exc c "boom"⟩ ::
          [⟨"analysis", fun c => .ok c⟩])
      (fun _ => none) (⟨"pending", [], 0⟩ : RunContext Nat)).raised = some "boom" ∧
    (pipelineRun
      ([⟨"research", fun c => .ok { c with data := c.data + 1 }⟩] ++
        ⟨"execution", fun c => .exc c "boom"⟩ ::
          [⟨"analysis", fun c => .ok c⟩])
      (fun _ => none) (⟨"pending", [], 0⟩ : RunContext Nat)).ctx.status = "failed" ∧
    (pipelineRun
      ([⟨"research", fun c => .ok { c with data := c.data + 1 }⟩] ++
        ⟨"execution", fun c => .exc c "boom"⟩ ::
          [⟨"analysis", fun c => .ok c⟩])
      (fun _ => none) (⟨"pending", [], 0⟩ : RunContext Nat)).ctx.errors
        = ([] : List String) ++ ["[" ++ "execution" ++ "] " ++ "boom"] ∧
    (pipelineRun
      ([⟨"research", fun c => .ok { c with data := c.data + 1 }⟩] ++
        ⟨"execution", fun c => .exc c "boom"⟩ ::
          [⟨"analysis", fun c => .ok c⟩])
      (fun _ => none) (⟨"pending", [], 0⟩ : RunContext Nat)).executed
        = ["research", "execution"] := by
  have h := pipeline_stage_error_handling.1 Nat (fun _ => none)
    [⟨"research", fun c => .ok { c with data := c.data + 1 }⟩]
    ⟨"execution", fun c => .exc c "boom"⟩
    [⟨"analysis", fun c => .ok c⟩]
    ⟨"pending", [], 0⟩ ⟨"running", [], 1⟩ ⟨"running", [], 1⟩ "boom"
    rfl rfl
  exact ⟨h.1, h.2.1, h.2.2.1, by rw [h.2.2.2]; rfl⟩

/-- C3 (code evaluation): `Pipeline.run` (pipeline.py line 36) accepts
no `stop_after` argument — although its only caller, engine.py line
124, passes one, which raises `TypeError` at runtime — and the stage
loop contains no early-stop check: with stages "research" and
"execution" registered and a hook after "research", the loop still
executes "execution" after "research". -/
theorem pipeline_run_has_no_stop_after :
    (pipelineRun [⟨"research", fun c => .ok c⟩, ⟨"execution", fun c => .ok c⟩]
      (fun n => if n = "research" then some (fun c => c) else none)
      (⟨"pending", [], 0⟩ : RunContext Nat)).executed = ["research", "execution"] ∧
    (pipelineRun [⟨"research", fun c => .ok c⟩, ⟨"execution", fun c => .ok c⟩]
      (fun n => if n = "research" then some (fun c => c) else none)
      (⟨"pending", [], 0⟩ : RunContext Nat)).ctx.status = "completed" := by
  exact ⟨rfl, rfl⟩

/-- C5: resuming a leaderboard run whose persisted
`results/results.json` contains at least one result reuses the stored
`ExecutionRun` unchanged and makes zero provider query calls in the
execution phase. -/
theorem leaderboard_resume_skips_execution
    (stored freshRun : ExecutionRun) (calls : Nat)
    (h : stored.results ≠ []) :
    leaderboardExecutionPhase true (some stored) freshRun calls = (stored, 0) := by
  simp [leaderboardExecutionPhase, h]

theorem leaderboard_resume_skips_execution_witness :
    ((⟨"lb-1", "cat", ["openai"], 1, 1, 0,
        [⟨"q1", "hello", "openai", "m", "resp", 3, none, 1, "t0", none⟩],
        "t0", some "t1", "completed"⟩ : ExecutionRun).results ≠ []) ∧
    leaderboardExecutionPhase true
      (some (⟨"lb-1", "cat", ["openai"], 1, 1, 0,
        [⟨"q1", "hello", "openai", "m", "resp", 3, none, 1, "t0", none⟩],
        "t0", some "t1", "completed"⟩ : ExecutionRun))
      (⟨"lb-1", "cat", ["openai"], 1, 0, 0, [], "t2", none, "running"⟩ : ExecutionRun)
      7 =
      ((⟨"lb-1", "cat", ["openai"], 1, 1, 0,
        [⟨"q1", "hello", "openai", "m", "resp", 3, none, 1, "t0", none⟩],
        "t0", some "t1", "completed"⟩ : ExecutionRun), 0) :=
  ⟨by decide,
    leaderboard_resume_skips_execution _ _ 7 (by decide)⟩

/-- C7: layer 1 of `deduplicate_brands` groups names that are
case-insensitive substrings of one another and keeps the longest name
of each group as canonical — on `["Acme Inc", "Acme", "Beta Corp"]` the
canonicals are `["Acme Inc", "Beta Corp"]` — and a layer-2 LLM
suggestion naming any brand that does not resolve in the canonical-set
lookup is silently discarded, leaving canonical list and alias map
unchanged. -/
theorem dedup_substring_layer_and_alias_validation :
    dedupLayer1Canonicals ["Acme Inc", "Acme", "Beta Corp"]
      = ["Acme Inc", "Beta Corp"] ∧
    (∀ (canonicalSet : List String) (st : AliasResolutionState) (a c : String),
      pyDictGet? (canonicalLowerMap canonicalSet) (pyLower a) = none ∨
        pyDictGet? (canonicalLowerMap canonicalSet) (pyLower c) = none →
      dedupLayer2Step (canonicalLowerMap canonicalSet) st (a, c) = st) := by
  constructor
  · rfl
  · intro cset st a c h
    rcases h with h | h
    · simp [dedupLayer2Step, h]
    · cases h1 : pyDictGet? (canonicalLowerMap cset) (pyLower a) <;>
        simp [dedupLayer2Step, h1, h]

theorem dedup_substring_layer_and_alias_validation_witness :
    (pyDictGet? (canonicalLowerMap ["Acme Inc", "Beta Corp"]) (pyLower "AI Co")
        = none ∨
      pyDictGet? (canonicalLowerMap ["Acme Inc", "Beta Corp"]) (pyLower "Acme Inc")
        = none) ∧
    dedupLayer2Step (canonicalLowerMap ["Acme Inc", "Beta Corp"])
      (⟨["Acme Inc", "Beta Corp"],
        [("Acme Inc", "Acme Inc"), ("Acme", "Acme Inc"),
          ("Beta Corp", "Beta Corp")]⟩ : AliasResolutionState)
      ("AI Co", "Acme Inc") =
      (⟨["Acme Inc", "Beta Corp"],
        [("Acme Inc", "Acme Inc"), ("Acme", "Acme Inc"),
          ("Beta Corp", "Beta Corp")]⟩ : AliasResolutionState) :=
  ⟨Or.inl (by decide),
    dedup_substring_layer_and_alias_validation.2 ["Acme Inc", "Beta Corp"]
      ⟨["Acme Inc", "Beta Corp"],
        [("Acme Inc", "Acme Inc"), ("Acme", "Acme Inc"),
          ("Beta Corp", "Beta Corp")]⟩
      "AI Co" "Acme Inc" (Or.inl (by decide))⟩

theorem rpFold_sum (name : String) (m : List (String × List String)) :
    ∀ (l : List QueryResult) (st : RPState),
      (l.foldl (rpStep name m) st).weightedSum
        = st.weightedSum + ((l.filter (fun r => !(rankedFor m r == []))).map
            (fun r =>
              if 0 < foundPosition name (rankedFor m r)
              then 1 / ((foundPosition name (rankedFor m r) : ℚ)) else 0)).sum ∧
      (l.foldl (rpStep name m) st).totalRanked
        = st.totalRanked + (l.filter (fun r => !(rankedFor m r == []))).length := by
  intro l
  induction l with
  | nil => intro st; simp
  | cons r rest ih =>
    intro st
    rw [List.foldl_cons]
    obtain ⟨ih1, ih2⟩ := ih (rpStep name m st r)
    by_cases hr : rankedFor m r = []
    · have hstep : rpStep name m st r = st := by
        simp [rpStep, hr]
      have hfilter : List.filter (fun x => !(rankedFor m x == [])) (r :: rest)
          = List.filter (fun x => !(rankedFor m x == [])) rest := by
        simp [List.filter_cons, hr]
      rw [hstep] at ih1 ih2
      rw [hfilter, hstep]
      exact ⟨ih1, ih2⟩
    · have hfilter : List.filter (fun x => !(rankedFor m x == [])) (r :: rest)
          = r :: List.filter (fun x => !(rankedFor m x == [])) rest := by
        simp [List.filter_cons, hr]
      rw [hfilter]
      simp only [List.map_cons, List.sum_cons, List.length_cons]
      by_cases hfp : 0 < foundPosition name (rankedFor m r)
      · have hws : (rpStep name m st r).weightedSum
            = st.weightedSum + 1 / ((foundPosition name (rankedFor m r) : ℚ)) := by
          simp [rpStep, hr, hfp]
        have htr : (rpStep name m st r).totalRanked = st.totalRanked + 1 := by
          simp [rpStep, hr, hfp]
        rw [ih1, ih2, hws, htr, if_pos hfp]
        exact ⟨by ring, by omega⟩
      · have hws : (rpStep name m st r).weightedSum = st.weightedSum := by
          simp [rpStep, hr, hfp]
        have htr : (rpStep name m st r).totalRanked = st.totalRanked + 1 := by
          simp [rpStep, hr, hfp]
        rw [ih1, ih2, hws, htr, if_neg hfp]
        exact ⟨by ring, by omega⟩

/-- C8: `analyze` computes `weighted_visibility` as the sum of `1/p`
contributions over ranked responses (0, not skipped, when the brand is
absent) divided by the number of ranked responses, rounded to 4
decimals; in particular positions 1 and 3 over exactly 2 ranked
responses give `round((1/1 + 1/3) / 2, 4) = 0.6667`. -/
theorem rank_position_weighted_visibility :
    (∀ (name : String) (results : List QueryResult)
       (m : List (String × List String)),
      (rankPositionAnalyze name results m).weighted_visibility
        = pyRound (specWeightedVisibility name results m) 4) ∧
    (rankPositionAnalyze "Acme"
      [⟨"q1", "best tools", "p1", "m", "text one", 5, none, 1, "t", none⟩,
       ⟨"q1", "best tools", "p2", "m", "text two", 5, none, 1, "t", none⟩]
      [("p1:q1:1", ["Acme", "Beta"]),
       ("p2:q1:1", ["X", "Y", "Acme"])]).weighted_visibility
      = 6667 / 10000 := by
  have hgen : ∀ (name : String) (results : List QueryResult)
      (m : List (String × List String)),
      (rankPositionAnalyze name results m).weighted_visibility
        = pyRound (specWeightedVisibility name results m) 4 := by
    intro name results m
    unfold rankPositionAnalyze specWeightedVisibility
    by_cases hv : results.filter
        (fun r => !(pyTruthyOptStr r.error) && r.response != "") = []
    · rw [hv]
      simp [emptyRankPositionScore]
      simp [pyRound, roundHalfEven]
    · rw [if_neg hv]
      obtain ⟨h1, h2⟩ := rpFold_sum name m
        (results.filter (fun r => !(pyTruthyOptStr r.error) && r.response != ""))
        rpInit
      show pyRound _ 4 = _
      rw [h1, h2]
      simp only [rpInit, zero_add]
      rcases Nat.eq_zero_or_pos
        ((results.filter (fun r => !(pyTruthyOptStr r.error) && r.response != "")).filter
          (fun r => !(rankedFor m r == []))).length with hlen | hlen
      · rw [List.length_eq_zero] at hlen
        rw [hlen]
        simp
      · rw [if_pos (by omega)]
  refine ⟨hgen, ?_⟩
  rw [hgen]
  have e5 : List.filter
      (fun r => !(pyTruthyOptStr r.error) && r.response != "")
      [(⟨"q1", "best tools", "p1", "m", "text one", 5, none, 1, "t", none⟩ : QueryResult),
       ⟨"q1", "best tools", "p2", "m", "text two", 5, none, 1, "t", none⟩]
      = [⟨"q1", "best tools", "p1", "m", "text one", 5, none, 1, "t", none⟩,
         ⟨"q1", "best tools", "p2", "m", "text two", 5, none, 1, "t", none⟩] := by
    decide
  have e1 : rankedFor [("p1:q1:1", ["Acme", "Beta"]), ("p2:q1:1", ["X", "Y", "Acme"])]
      (⟨"q1", "best tools", "p1", "m", "text one", 5, none, 1, "t", none⟩ : QueryResult)
      = ["Acme", "Beta"] := by decide
  have e2 : rankedFor [("p1:q1:1", ["Acme", "Beta"]), ("p2:q1:1", ["X", "Y", "Acme"])]
      (⟨"q1", "best tools", "p2", "m", "text two", 5, none, 1, "t", none⟩ : QueryResult)
      = ["X", "Y", "Acme"] := by decide
  have e3 : foundPosition "Acme" ["Acme", "Beta"] = 1 := by decide
  have e4 : foundPosition "Acme" ["X", "Y", "Acme"] = 3 := by decide
  have emap : List.filter
      (fun r => !(rankedFor [("p1:q1:1", ["Acme", "Beta"]),
        ("p2:q1:1", ["X", "Y", "Acme"])] r == []))
      [(⟨"q1", "best tools", "p1", "m", "text one", 5, none, 1, "t", none⟩ : QueryResult),
       ⟨"q1", "best tools", "p2", "m", "text two", 5, none, 1, "t", none⟩]
      = [⟨"q1", "best tools", "p1", "m", "text one", 5, none, 1, "t", none⟩,
         ⟨"q1", "best tools", "p2", "m", "text two", 5, none, 1, "t", none⟩] := by
    decide
  have hspec : specWeightedVisibility "Acme"
      [⟨"q1", "best tools", "p1", "m", "text one", 5, none, 1, "t", none⟩,
       ⟨"q1", "best tools", "p2", "m", "text two", 5, none, 1, "t", none⟩]
      [("p1:q1:1", ["Acme", "Beta"]), ("p2:q1:1", ["X", "Y", "Acme"])] = 2 / 3 := by
    simp only [specWeightedVisibility]
    rw [e5, emap]
    simp only [List.map_cons, List.map_nil, List.sum_cons, List.sum_nil,
      List.length_cons, List.length_nil]
    rw [e1, e2]
    rw [e3, e4]
    norm_num
  rw [hspec]
  have hfloor : ⌊(2 / 3 : ℚ) * (10 ^ 4 : ℚ)⌋ = 6666 := by
    rw [Int.floor_eq_iff]
    constructor
    · norm_num
    · norm_num
  simp only [pyRound, roundHalfEven, hfloor]
  norm_num

theorem pyDictGet?_isSome_iff {β : Type} (m : List (String × β)) (k : String) :
    (pyDictGet? m k).isSome ↔ ∃ kv ∈ m, kv.1 = k := by
  simp [pyDictGet?, List.find?_isSome]

theorem mem_pyDictSet {β : Type} (m : List (String × β)) (k : String) (v : β) :
    ∀ kv ∈ pyDictSet m k v, kv ∈ m ∨ kv = (k, v) := by
  intro kv hkv
  unfold pyDictSet at hkv
  split at hkv
  · rcases List.mem_map.1 hkv with ⟨kv0, h0, heq⟩
    by_cases hc : kv0.1 == k
    · rw [if_pos hc] at heq
      exact Or.inr heq.symm
    · rw [if_neg hc] at heq
      exact Or.inl (heq ▸ h0)
  · rcases List.mem_append.1 hkv with h | h
    · exact Or.inl h
    · simp at h
      exact Or.inr h

theorem pyDictGet?_pyDictSet_isSome {β : Type} (m : List (String × β))
    (k : String) (v : β) (k' : String)
    (h : (pyDictGet? m k').isSome ∨ k' = k) :
    (pyDictGet? (pyDictSet m k v) k').isSome := by
  rw [pyDictGet?_isSome_iff] at *
  unfold pyDictSet
  split
  case isTrue hany =>
    rcases h with ⟨kv, hkv, hk⟩ | rfl
    · by_cases hc : kv.1 = k
      · refine ⟨(k, v), List.mem_map.2 ⟨kv, hkv, by simp [hc]⟩, by simp [← hk, hc]⟩
      · exact ⟨kv, List.mem_map.2 ⟨kv, hkv, by simp [hc]⟩, hk⟩
    · rcases List.any_eq_true.1 hany with ⟨kv, hkv, hc⟩
      exact ⟨(k', v), List.mem_map.2 ⟨kv, hkv, by simp [hc]⟩, rfl⟩
  case isFalse =>
    rcases h with ⟨kv, hkv, hk⟩ | rfl
    · exact ⟨kv, by simp [hkv], hk⟩
    · exact ⟨(k', v), by simp, rfl⟩

theorem pyDictGet?_mem {β : Type} (m : List (String × β)) (k : String) (v : β)
    (h : pyDictGet? m k = some v) : ∃ kv ∈ m, kv.2 = v := by
  unfold pyDictGet? at h
  rcases Option.map_eq_some'.1 h with ⟨kv, hfind, hv⟩
  exact ⟨kv, List.mem_of_find?_eq_some hfind, hv⟩

theorem initMap_keys (items : List (String × String)) :
    ∀ (m0 : List (String × List String)) (rid : String),
      (rid ∈ items.map Prod.fst ∨ (pyDictGet? m0 rid).isSome) →
      (pyDictGet? (items.foldl (fun m it => pyDictSet m it.1 []) m0) rid).isSome := by
  induction items with
  | nil =>
    intro m0 rid h
    rcases h with h | h
    · simp at h
    · simpa using h
  | cons it rest ih =>
    intro m0 rid h
    rw [List.foldl_cons]
    apply ih
    rcases h with h | h
    · rcases (by simpa using h : rid = it.1 ∨ rid ∈ rest.map Prod.fst) with heq | hmem
      · exact Or.inr (pyDictGet?_pyDictSet_isSome m0 it.1 [] rid (Or.inr heq))
      · exact Or.inl hmem
    · exact Or.inr (pyDictGet?_pyDictSet_isSome m0 it.1 [] rid (Or.inl h))

theorem initMap_values (items : List (String × String)) :
    ∀ (m0 : List (String × List String)),
      (∀ kv ∈ m0, kv.2 = ([] : List String)) →
      ∀ kv ∈ items.foldl (fun m it => pyDictSet m it.1 []) m0, kv.2 = [] := by
  induction items with
  | nil => intro m0 h; simpa using h
  | cons it rest ih =>
    intro m0 h
    rw [List.foldl_cons]
    apply ih
    intro kv hkv
    rcases mem_pyDictSet m0 it.1 [] kv hkv with hm | rfl
    · exact h kv hm
    · rfl

theorem fold_insert_values {α β : Type} (key : α → String) (val : α → β)
    (P : β → Prop) :
    ∀ (l : List α), (∀ a ∈ l, P (val a)) →
      ∀ (m0 : List (String × β)), (∀ kv ∈ m0, P kv.2) →
      ∀ kv ∈ l.foldl (fun m a => pyDictSet m (key a) (val a)) m0, P kv.2 := by
  intro l
  induction l with
  | nil => intro _ m0 h0; simpa using h0
  | cons a rest ih =>
    intro hv m0 h0
    rw [List.foldl_cons]
    apply ih (fun x hx => hv x (by simp [hx]))
    intro kv hkv
    rcases mem_pyDictSet m0 (key a) (val a) kv hkv with hm | rfl
    · exact h0 kv hm
    · exact hv a (by simp)

theorem buildByLower_values (candidates : List String) :
    ∀ kv ∈ buildByLower candidates, kv.2 ∈ candidates := by
  unfold buildByLower
  exact fold_insert_values pyLower id (· ∈ candidates) candidates
    (fun a ha => ha) [] (by simp)

theorem buildByNorm_values (candidates : List String) :
    ∀ kv ∈ buildByNorm candidates, kv.2 ∈ candidates := by
  unfold buildByNorm
  exact fold_insert_values pyNormEntity id (· ∈ candidates) candidates
    (fun a ha => ha) [] (by simp)

theorem buildAcronymMaps_values (P : String → Prop) :
    ∀ (l : List String) (st : List (String × Nat) × List (String × String)),
      (∀ kv ∈ st.2, P kv.2) → (∀ a ∈ l, P a) →
      ∀ kv ∈ (l.foldl (fun st brand =>
        let words := pyWords brand
        if words.length < 2 then st
        else
          let acr := String.mk (words.filterMap wordInitial)
          if 2 ≤ acr.length ∧ acr.length ≤ 6 then
            (pyDictSet st.1 acr (pyDictGetD st.1 acr 0 + 1),
              pyDictSet st.2 acr brand)
          else st) st).2, P kv.2 := by
  intro l
  induction l with
  | nil => intro st h0 _; simpa using h0
  | cons brand rest ih =>
    intro st h0 hl
    rw [List.foldl_cons]
    apply ih
    · show ∀ kv ∈ (if (pyWords brand).length < 2 then st
        else
          if 2 ≤ (String.mk ((pyWords brand).filterMap wordInitial)).length ∧
              (String.mk ((pyWords brand).filterMap wordInitial)).length ≤ 6 then
            (pyDictSet st.1 (String.mk ((pyWords brand).filterMap wordInitial))
              (pyDictGetD st.1 (String.mk ((pyWords brand).filterMap wordInitial)) 0 + 1),
              pyDictSet st.2 (String.mk ((pyWords brand).filterMap wordInitial)) brand)
          else st).2, P kv.2
      split
      · exact h0
      · split
        · intro kv hkv
          rcases mem_pyDictSet st.2 _ brand kv hkv with hm | rfl
          · exact h0 kv hm
          · exact hl brand (by simp)
        · exact h0
    · intro a ha
      exact hl a (by simp [ha])

theorem uniqueAcronyms_values (candidates : List String) :
    ∀ kv ∈ uniqueAcronyms candidates, kv.2 ∈ candidates := by
  intro kv hkv
  unfold uniqueAcronyms at hkv
  have hmem := List.mem_of_mem_filter hkv
  revert hmem
  show kv ∈ (buildAcronymMaps candidates).2 → kv.2 ∈ candidates
  intro hmem
  unfold buildAcronymMaps at hmem
  exact buildAcronymMaps_values (· ∈ candidates) candidates ([], [])
    (by simp) (fun a ha => ha) kv hmem

theorem canonicalizeBrandName_mem (candidates : List String) (raw c : String)
    (h : canonicalizeBrandName raw (buildByLower candidates)
      (buildByNorm candidates) (uniqueAcronyms candidates) = some c) :
    c ∈ candidates := by
  unfold canonicalizeBrandName at h
  split at h
  · exact absurd h (by simp)
  · split at h
    case h_1 x heq =>
      obtain rfl : x = c := by simpa using h
      obtain ⟨kv, hkv, hv⟩ := pyDictGet?_mem _ _ _ heq
      exact hv ▸ buildByLower_values candidates kv hkv
    case h_2 =>
      split at h
      case h_1 x heq =>
        obtain rfl : x = c := by simpa using h
        obtain ⟨kv, hkv, hv⟩ := pyDictGet?_mem _ _ _ heq
        exact hv ▸ buildByNorm_values candidates kv hkv
      case h_2 =>
        split at h
        case h_1 x heq =>
          obtain rfl : x = c := by simpa using h
          obtain ⟨kv, hkv, hv⟩ := pyDictGet?_mem _ _ _ heq
          exact hv ▸ uniqueAcronyms_values candidates kv hkv
        case h_2 =>
          rcases Option.map_eq_some'.1 h with ⟨kv, hfind, hv⟩
          exact hv ▸ buildByLower_values candidates kv
            (List.mem_of_find?_eq_some hfind)

theorem canonLoop_good (candidates : List String) (maxPer : Nat) :
    ∀ (raws : List PyJson) (seen acc : List String),
      acc.Nodup → (∀ x ∈ acc, x ∈ seen) → (∀ x ∈ acc, x ∈ candidates) →
      acc.length < maxPer →
      (canonLoop (buildByLower candidates) (buildByNorm candidates)
          (uniqueAcronyms candidates) maxPer raws seen acc).Nodup ∧
      (∀ x ∈ canonLoop (buildByLower candidates) (buildByNorm candidates)
          (uniqueAcronyms candidates) maxPer raws seen acc, x ∈ candidates) ∧
      (canonLoop (buildByLower candidates) (buildByNorm candidates)
          (uniqueAcronyms candidates) maxPer raws seen acc).length ≤ maxPer := by
  intro raws
  induction raws with
  | nil =>
    intro seen acc hnd hsub hcand hlt
    exact ⟨hnd, hcand, Nat.le_of_lt hlt⟩
  | cons raw rest ih =>
    intro seen acc hnd hsub hcand hlt
    cases raw with
    | str s =>
      rw [canonLoop]
      cases hcan : canonicalizeBrandName s (buildByLower candidates)
          (buildByNorm candidates) (uniqueAcronyms candidates) with
      | none =>
        simp only
        rw [if_neg (by omega)]
        exact ih seen acc hnd hsub hcand hlt
      | some c =>
        simp only
        by_cases hseen : seen.contains c
        · rw [if_pos hseen]
          simp only
          rw [if_neg (by omega)]
          exact ih seen acc hnd hsub hcand hlt
        · rw [if_neg hseen]
          simp only
          have hcnotin : c ∉ acc := fun hin =>
            hseen (by simpa using hsub c hin)
          have hnd1 : (acc ++ [c]).Nodup := by
            simp [List.nodup_append, hnd, hcnotin]
          have hsub1 : ∀ x ∈ acc ++ [c], x ∈ c :: seen := by
            intro x hx
            rcases List.mem_append.1 hx with hx | hx
            · exact List.mem_cons_of_mem c (hsub x hx)
            · simp at hx
              simp [hx]
          have hcand1 : ∀ x ∈ acc ++ [c], x ∈ candidates := by
            intro x hx
            rcases List.mem_append.1 hx with hx | hx
            · exact hcand x hx
            · simp at hx
              exact hx ▸ canonicalizeBrandName_mem candidates s c hcan
          by_cases hfull : maxPer ≤ (acc ++ [c]).length
          · rw [if_pos hfull]
            refine ⟨hnd1, hcand1, ?_⟩
            simp only [List.length_append, List.length_cons, List.length_nil]
            omega
          · rw [if_neg hfull]
            exact ih (c :: seen) (acc ++ [c]) hnd1 hsub1 hcand1 (by omega)
    | null => exact ih seen acc hnd hsub hcand hlt
    | bool b => exact ih seen acc hnd hsub hcand hlt
    | num q => exact ih seen acc hnd hsub hcand hlt
    | arr l => exact ih seen acc hnd hsub hcand hlt
    | obj l => exact ih seen acc hnd hsub hcand hlt

theorem processBatchItems_good (candidates : List String) (maxPer : Nat)
    (hmp : 0 < maxPer) :
    ∀ (fields : List (String × PyJson)) (m : List (String × List String)),
      (∀ kv ∈ m, kv.2.Nodup ∧ kv.2.length ≤ maxPer ∧ ∀ n ∈ kv.2, n ∈ candidates) →
      ∀ kv ∈ processBatchItems (buildByLower candidates) (buildByNorm candidates)
          (uniqueAcronyms candidates) maxPer fields m,
        kv.2.Nodup ∧ kv.2.length ≤ maxPer ∧ ∀ n ∈ kv.2, n ∈ candidates := by
  intro fields
  induction fields with
  | nil => intro m hm; simpa [processBatchItems] using hm
  | cons f rest ih =>
    intro m hm
    rw [processBatchItems, List.foldl_cons]
    rw [← processBatchItems]
    apply ih
    cases f.2 with
    | arr raws =>
      simp only
      intro kv hkv
      rcases mem_pyDictSet m f.1 _ kv hkv with hmem | heq
      · exact hm kv hmem
      · obtain ⟨g1, g2, g3⟩ := canonLoop_good candidates maxPer raws [] []
          (by simp) (by simp) (by simp) (by simpa using hmp)
        rw [heq]
        exact ⟨g1, g3, g2⟩
    | null => simpa using hm
    | bool b => simpa using hm
    | num q => simpa using hm
    | str s => simpa using hm
    | obj l => simpa using hm

theorem processBatchItems_keys (bl bn ba : List (String × String)) (mp : Nat)
    (rid : String) :
    ∀ (fields : List (String × PyJson)) (m : List (String × List String)),
      (pyDictGet? m rid).isSome →
      (pyDictGet? (processBatchItems bl bn ba mp fields m) rid).isSome := by
  intro fields
  induction fields with
  | nil => intro m h; simpa [processBatchItems] using h
  | cons f rest ih =>
    intro m h
    rw [processBatchItems, List.foldl_cons]
    rw [← processBatchItems]
    apply ih
    cases f.2 with
    | arr raws =>
      exact pyDictGet?_pyDictSet_isSome m f.1 _ rid (Or.inl h)
    | null => exact h
    | bool b => exact h
    | num q => exact h
    | str s => exact h
    | obj l => exact h

theorem batchFold_good (candidates : List String) (maxPer : Nat)
    (hmp : 0 < maxPer) (llm : Nat → Option PyJson) :
    ∀ (batches : List (List (String × String)))
      (st : Nat × List (String × List String)),
      (∀ kv ∈ st.2, kv.2.Nodup ∧ kv.2.length ≤ maxPer ∧ ∀ n ∈ kv.2, n ∈ candidates) →
      ∀ kv ∈ (batches.foldl (batchStep (buildByLower candidates)
          (buildByNorm candidates) (uniqueAcronyms candidates) maxPer llm) st).2,
        kv.2.Nodup ∧ kv.2.length ≤ maxPer ∧ ∀ n ∈ kv.2, n ∈ candidates := by
  intro batches
  induction batches with
  | nil => intro st h; simpa using h
  | cons b rest ih =>
    intro st h
    rw [List.foldl_cons]
    apply ih
    rw [batchStep]
    cases hl : llm st.1 with
    | none => exact h
    | some j =>
      cases j with
      | obj fields =>
        simp only
        exact processBatchItems_good candidates maxPer hmp fields st.2 h
      | null => exact h
      | bool x => exact h
      | num x => exact h
      | str x => exact h
      | arr x => exact h

theorem batchFold_keys (candidates : List String) (maxPer : Nat)
    (llm : Nat → Option PyJson) (rid : String) :
    ∀ (batches : List (List (String × String)))
      (st : Nat × List (String × List String)),
      (pyDictGet? st.2 rid).isSome →
      (pyDictGet? (batches.foldl (batchStep (buildByLower candidates)
          (buildByNorm candidates) (uniqueAcronyms candidates) maxPer llm) st).2
        rid).isSome := by
  intro batches
  induction batches with
  | nil => intro st h; simpa using h
  | cons b rest ih =>
    intro st h
    rw [List.foldl_cons]
    apply ih
    rw [batchStep]
    cases hl : llm st.1 with
    | none => exact h
    | some j =>
      cases j with
      | obj fields =>
        simp only
        exact processBatchItems_keys _ _ _ _ rid fields st.2 h
      | null => exact h
      | bool x => exact h
      | num x => exact h
      | str x => exact h
      | arr x => exact h

/-- C10: for every input list and candidate list, every ranking-signal
predicate, every batch size ≥ 1 (Python raises on 0) and whatever JSON
each provider call parses to (or a parse failure), the returned map has
every input response id among its keys (except in the carved-out empty
cases), every value is a duplicate-free list of at most 15 names all
drawn from `candidate_brands`, and empty items or candidates give the
empty mapping. -/
theorem extract_ranked_brands_invariants
    (items : List (String × String)) (candidates : List String)
    (signal : String → Bool) (llm : Nat → Option PyJson) (batchSize : Nat)
    (hbs : 0 < batchSize) :
    (candidates ≠ [] →
      ∀ rid ∈ items.map Prod.fst,
        (pyDictGet? (extractRankedBrands items candidates signal llm batchSize 15)
          rid).isSome) ∧
    (∀ kv ∈ extractRankedBrands items candidates signal llm batchSize 15,
      kv.2.Nodup ∧ kv.2.length ≤ 15 ∧ ∀ n ∈ kv.2, n ∈ candidates) ∧
    ((items = [] ∨ candidates = []) →
      extractRankedBrands items candidates signal llm batchSize 15 = []) := by
  by_cases hempty : items = [] ∨ candidates = []
  · have hres : extractRankedBrands items candidates signal llm batchSize 15 = [] := by
      simp only [extractRankedBrands]
      rw [if_pos hempty]
    refine ⟨?_, ?_, fun _ => hres⟩
    · intro hcand rid hrid
      exfalso
      rcases hempty with h | h
      · subst h; simp at hrid
      · exact hcand h
    · rw [hres]
      intro kv hkv
      simp at hkv
  · have hrw : extractRankedBrands items candidates signal llm batchSize 15 =
        (if items.filter (fun it => signal it.2) = []
         then items.foldl (fun m it => pyDictSet m it.1 []) []
         else ((chunkList batchSize (items.filter (fun it => signal it.2))).foldl
            (batchStep (buildByLower candidates) (buildByNorm candidates)
              (uniqueAcronyms candidates) 15 llm)
            (0, items.foldl (fun m it => pyDictSet m it.1 []) [])).2) := by
      simp only [extractRankedBrands]
      rw [if_neg hempty]
    rw [hrw]
    refine ⟨?_, ?_, fun h => absurd h hempty⟩
    · intro _ rid hrid
      split
      next hlik =>
        exact initMap_keys items [] rid (Or.inl hrid)
      next hlik =>
        exact batchFold_keys candidates 15 llm rid
          (chunkList batchSize (items.filter (fun it => signal it.2)))
          (0, items.foldl (fun m it => pyDictSet m it.1 []) [])
          (initMap_keys items [] rid (Or.inl hrid))
    · have hinit : ∀ kv ∈ items.foldl (fun m it => pyDictSet m it.1 []) [],
          kv.2.Nodup ∧ kv.2.length ≤ 15 ∧ ∀ n ∈ kv.2, n ∈ candidates := by
        intro kv hkv
        have hnil := initMap_values items [] (by simp) kv hkv
        rw [hnil]
        exact ⟨by simp, by simp, by simp⟩
      split
      next hlik => exact hinit
      next hlik =>
        exact batchFold_good candidates 15 (by norm_num) llm
          (chunkList batchSize (items.filter (fun it => signal it.2)))
          (0, items.foldl (fun m it => pyDictSet m it.1 []) []) hinit

theorem extract_ranked_brands_invariants_witness :
    (pyDictGet? (extractRankedBrands [("r1", "1. Acme")] ["Acme"] (fun _ => true)
      (fun _ => some (.obj [("r1", .arr [.str "Acme"])])) 8 15) "r1").isSome ∧
    (["Acme"] : List String).Nodup ∧
    (["Acme"] : List String).length ≤ 15 ∧
    "Acme" ∈ (["Acme"] : List String) := by
  obtain ⟨h1, h2, _⟩ := extract_ranked_brands_invariants [("r1", "1. Acme")]
    ["Acme"] (fun _ => true) (fun _ => some (.obj [("r1", .arr [.str "Acme"])]))
    8 (by decide)
  have hmem : (("r1", ["Acme"]) : String × List String) ∈
      extractRankedBrands [("r1", "1. Acme")] ["Acme"] (fun _ => true)
        (fun _ => some (.obj [("r1", .arr [.str "Acme"])])) 8 15 := by decide
  obtain ⟨g1, g2, g3⟩ := h2 ("r1", ["Acme"]) hmem
  exact ⟨h1 (by decide) "r1" (by decide), g1, g2, g3 "Acme" (by decide)⟩

end VoyageGeo
